import Mathlib

/-!
Verification development for the trinova-team video/podcast pipeline.

Python strings are embedded as `List Char`; JSON/HTTP service calls are
embedded as pure functions over explicit request/response data; the mutable
`OutputManager` becomes explicit state passing over `OMState`.  Every
definition is translated from the corresponding repository source
(`src/solution.py`, `src/generate_podcast.py`, `src/output_manager.py`,
`src/services/*.py`); the doc comment of each definition names its origin.
-/

/-! ## Basic string helpers (embedding of Python `str` operations) -/

/-- The whitespace characters recognised by Python's `str.strip()` and by the
ASCII fragment of the regex class `\s` (the scripts in this repository only
contain ASCII whitespace). -/
def isPySpace (c : Char) : Bool :=
  c == ' ' || c == '\t' || c == '\n' || c == '\r' || c == '\x0b' || c == '\x0c'

/-- Drop trailing characters satisfying `p` (helper for `str.strip()`). -/
def dropTrail (p : Char → Bool) (s : List Char) : List Char :=
  (s.reverse.dropWhile p).reverse

/-- Python `str.strip()`: remove leading and trailing whitespace. -/
def pyStrip (s : List Char) : List Char :=
  dropTrail isPySpace (s.dropWhile isPySpace)

/-- `leadsWith pat s` is true when `pat` is an initial run of `s`
(the anchored-literal part of a regex match). -/
def leadsWith : List Char → List Char → Bool
  | [], _ => true
  | _ :: _, [] => false
  | p :: ps, c :: cs => p == c && leadsWith ps cs

/-- `containsSub pat s`: `pat` occurs somewhere in `s`
(Python's `pat in s` substring test). -/
def containsSub (pat : List Char) : List Char → Bool
  | [] => leadsWith pat []
  | c :: rest => leadsWith pat (c :: rest) || containsSub pat rest

/-- Split `s` at the first occurrence of `pat`: returns the text before the
occurrence and the text after it.  This is the engine behind the embedded
regex scans (a lazy `.*?pat` consumes exactly the text up to the first
occurrence of `pat`). -/
def splitFirst (pat : List Char) (s : List Char) : Option (List Char × List Char) :=
  match s with
  | [] => if leadsWith pat [] then some ([], []) else none
  | c :: rest =>
    if leadsWith pat (c :: rest) then some ([], (c :: rest).drop pat.length)
    else (splitFirst pat rest).map (fun ab => (c :: ab.1, ab.2))

/-- Python `dict` insertion: overwriting an existing key keeps its position,
a new key is appended at the end. -/
def pyDictInsert [BEq κ] (k : κ) (v : α) (d : List (κ × α)) : List (κ × α) :=
  if d.any (fun p => p.1 == k) then
    d.map (fun p => if p.1 == k then (k, v) else p)
  else d ++ [(k, v)]

/-- Build a Python `dict` from a key/value sequence (a dict comprehension):
later duplicates overwrite earlier entries. -/
def pyDictOfList [BEq κ] (l : List (κ × α)) : List (κ × α) :=
  l.foldl (fun d p => pyDictInsert p.1 p.2 d) []

/-- Python `dict` lookup `d.get(k)`. -/
def pyDictGet [BEq κ] (d : List (κ × α)) (k : κ) : Option α :=
  (d.find? (fun p => p.1 == k)).map (fun p => p.2)

/-! ## Lemmas about the string helpers -/

theorem leadsWith_append_self (p b : List Char) : leadsWith p (p ++ b) = true := by
  induction p with
  | nil => rfl
  | cons c cs ih => simp [leadsWith, ih]

theorem leadsWith_get (pat s : List Char) (h : leadsWith pat s = true) :
    ∀ k, k < pat.length → s.get? k = pat.get? k := by
  induction pat generalizing s with
  | nil => intro k hk; simp at hk
  | cons p ps ih =>
    cases s with
    | nil => simp [leadsWith] at h
    | cons c cs =>
      simp only [leadsWith, Bool.and_eq_true, beq_iff_eq] at h
      intro k hk
      cases k with
      | zero => simp [h.1]
      | succ k' =>
        simp only [List.get?_cons_succ]
        exact ih cs h.2 k' (by simpa using hk)

theorem leadsWith_of_append_le (pat x y : List Char) (h : pat.length ≤ x.length) :
    leadsWith pat (x ++ y) = leadsWith pat x := by
  induction pat generalizing x with
  | nil => simp [leadsWith]
  | cons p ps ih =>
    cases x with
    | nil => simp at h
    | cons c cs =>
      simp only [List.cons_append, leadsWith, List.append_eq]
      rw [ih cs (by simpa using h)]

theorem containsSub_all (pat v : List Char) (hne : pat ≠ [])
    (h : containsSub pat v = false) : ∀ j, leadsWith pat (v.drop j) = false := by
  induction v with
  | nil =>
    intro j
    cases pat with
    | nil => exact absurd rfl hne
    | cons p ps => simp [leadsWith]
  | cons c cs ih =>
    simp only [containsSub, Bool.or_eq_false_iff] at h
    intro j
    cases j with
    | zero => exact h.1
    | succ j' => exact ih h.2 j'

theorem containsSub_of_leadsWith_drop (pat v : List Char) (hne : pat ≠ []) (j : Nat)
    (h : leadsWith pat (v.drop j) = true) : containsSub pat v = true := by
  by_contra hc
  have := containsSub_all pat v hne (by revert hc; cases containsSub pat v <;> simp) j
  rw [this] at h
  exact absurd h (by simp)

theorem splitFirst_self (pat b : List Char) : splitFirst pat (pat ++ b) = some ([], b) := by
  cases pat with
  | nil => cases b <;> simp [splitFirst, leadsWith]
  | cons p ps =>
    simp only [List.cons_append, splitFirst, List.append_eq]
    rw [show leadsWith (p :: ps) (p :: (ps ++ b)) = true by
      simp [leadsWith, leadsWith_append_self]]
    simp [List.drop_left]

theorem splitFirst_append (pat a b : List Char)
    (h : ∀ i, i < a.length → leadsWith pat ((a ++ (pat ++ b)).drop i) = false) :
    splitFirst pat (a ++ (pat ++ b)) = some (a, b) := by
  induction a with
  | nil => simpa using splitFirst_self pat b
  | cons c cs ih =>
    have h0 := h 0 (by simp)
    simp only [List.drop_zero, List.cons_append] at h0
    simp only [List.cons_append, splitFirst, List.append_eq, h0, Bool.false_eq_true,
      if_false]
    rw [ih (fun i hi => by
      have := h (i + 1) (by simpa using Nat.succ_lt_succ hi)
      simpa using this)]
    rfl

theorem splitFirst_none (pat s : List Char) (hne : pat ≠ [])
    (h : containsSub pat s = false) : splitFirst pat s = none := by
  induction s with
  | nil =>
    cases pat with
    | nil => exact absurd rfl hne
    | cons p ps => simp [splitFirst, leadsWith]
  | cons c cs ih =>
    simp only [containsSub, Bool.or_eq_false_iff] at h
    simp [splitFirst, h.1, ih h.2]

theorem takeWhile_append_stop (p : Char → Bool) (xs : List Char) (y : Char) (ys : List Char)
    (hall : ∀ x ∈ xs, p x = true) (hy : p y = false) :
    (xs ++ y :: ys).takeWhile p = xs := by
  induction xs with
  | nil => simp [List.takeWhile, hy]
  | cons x xt ih =>
    have hx := hall x (by simp)
    simp only [List.cons_append, List.takeWhile, hx, List.append_eq]
    rw [ih (fun z hz => hall z (by simp [hz]))]

theorem dropWhile_append_stop (p : Char → Bool) (xs : List Char) (y : Char) (ys : List Char)
    (hall : ∀ x ∈ xs, p x = true) (hy : p y = false) :
    (xs ++ y :: ys).dropWhile p = y :: ys := by
  induction xs with
  | nil => simp [List.dropWhile, hy]
  | cons x xt ih =>
    have hx := hall x (by simp)
    simp only [List.cons_append, List.dropWhile, hx, List.append_eq]
    exact ih (fun z hz => hall z (by simp [hz]))

/-! ## Long-running video generation client (src/services/video_service.py) -/

/-- A decoded status response of the Veo polling endpoint; only the `done`
flag matters to the waiting loop (`s.get("done")`). -/
structure VeoStatus where
  done : Bool
deriving DecidableEq

/-- The failure taxonomy of the video client: `timeout` embeds the Python
`TimeoutError` raised by `wait_done`, `transport` embeds the
`requests` exceptions, `badResponse` the `ValueError`s of `download`. -/
inductive VeoErr
  | timeout
  | transport
  | badResponse
deriving DecidableEq

/-- The polling loop of `VeoVideoService.wait_done`:
`while time.time() - start < timeout_sec: poll; sleep(interval_sec)`.
Time is modelled discretely: the k-th poll happens at `k * interval_sec`
(the status calls and sleeps are the only time consumers).  Returns the
result together with the list of polled iteration indices.  `fuel` bounds
the iterations; `wait_done` supplies `timeout_sec + 1`, which is enough
whenever `interval_sec ≥ 1` (with `interval_sec = 0` the Python loop would
never terminate). -/
def waitDoneGo (status : Nat → VeoStatus) (timeout_sec interval_sec : Nat) :
    Nat → Nat → Except VeoErr VeoStatus × List Nat
  | 0, _ => (.error .timeout, [])
  | fuel + 1, k =>
    if k * interval_sec < timeout_sec then
      if (status k).done then (.ok (status k), [k])
      else
        let r := waitDoneGo status timeout_sec interval_sec fuel (k + 1)
        (r.1, k :: r.2)
    else (.error .timeout, [])

/-- `VeoVideoService.wait_done`: poll until a done status or the timeout
elapses; on timeout raise the distinct `TimeoutError`. -/
def wait_done (status : Nat → VeoStatus) (timeout_sec interval_sec : Nat) :
    Except VeoErr VeoStatus :=
  (waitDoneGo status timeout_sec interval_sec (timeout_sec + 1) 0).1

/-- Observable events of one wait-then-download use of the video service:
polls of the operation status, and the HTTP fetch performed by
`VeoVideoService.download`. -/
inductive VeoEvent
  | poll (k : Nat)
  | downloadReq
deriving DecidableEq

/-- The start/poll/download usage pattern of `VeoVideoService` (spec §4.5):
wait for the operation, and only when the wait returns a status call
`download` on it.  Produces the ordered event list of remote requests. -/
def veoWaitAndDownload (status : Nat → VeoStatus) (timeout_sec interval_sec : Nat) :
    List VeoEvent :=
  let r := waitDoneGo status timeout_sec interval_sec (timeout_sec + 1) 0
  match r.1 with
  | .ok _ => r.2.map VeoEvent.poll ++ [.downloadReq]
  | .error _ => r.2.map VeoEvent.poll

theorem waitDoneGo_never_done (status : Nat → VeoStatus) (timeout_sec interval_sec : Nat)
    (h : ∀ k, (status k).done = false) :
    ∀ fuel k, (waitDoneGo status timeout_sec interval_sec fuel k).1 = .error .timeout := by
  intro fuel
  induction fuel with
  | zero => intro k; rfl
  | succ n ih =>
    intro k
    simp only [waitDoneGo]
    by_cases hk : k * interval_sec < timeout_sec
    · simp [hk, h k, ih (k + 1)]
    · simp [hk]

/-- C4: a status sequence that never reports done makes `wait_done` fail with
the distinct timeout error (not a transport error), and the download request
is never issued. -/
theorem C4_wait_done_timeout (status : Nat → VeoStatus) (timeout_sec interval_sec : Nat)
    (h : ∀ k, (status k).done = false) :
    wait_done status timeout_sec interval_sec = .error VeoErr.timeout ∧
    VeoEvent.downloadReq ∉ veoWaitAndDownload status timeout_sec interval_sec := by
  have hgo := waitDoneGo_never_done status timeout_sec interval_sec h
    (timeout_sec + 1) 0
  refine ⟨hgo, ?_⟩
  simp only [veoWaitAndDownload]
  rw [hgo]
  simp

/-- Witness for C4 at a concrete never-done status stream with the default
configuration (timeout 900 s, interval 10 s). -/
theorem C4_wait_done_timeout_witness :
    wait_done (fun _ => ⟨false⟩) 900 10 = .error VeoErr.timeout ∧
    VeoEvent.downloadReq ∉ veoWaitAndDownload (fun _ => ⟨false⟩) 900 10 :=
  C4_wait_done_timeout (fun _ => ⟨false⟩) 900 10 (fun _ => rfl)

/-! ## Image generation clients (src/services/image_service.py and
src/services/image_service_enhanced.py) -/

/-- The two request shapes used against `/images/generations`: the primary
body (`prompt`/`model`/`n` with top-level `size` or `aspect_ratio`) and the
fallback OpenAI-style body that nests `size`/`aspect_ratio` under
`extra_body`. -/
inductive ReqShape
  | primary
  | extraBody
deriving DecidableEq

/-- The transport-level outcome of one HTTP POST: a network failure
(`requests.post` raising a `RequestException` with no response) or a
response with a status code and decoded JSON body (abstracted to a `Nat`
payload). -/
inductive HttpOutcome
  | netFail
  | resp (status : Nat) (body : Nat)
deriving DecidableEq

/-- The failure modes surfaced by the generate paths: a propagated network
exception or a raised `HTTPError`. -/
inductive GenErr
  | network
  | http
deriving DecidableEq

/-- `requests.Response.raise_for_status()` raises `HTTPError` exactly for
status codes in `[400, 600)`. -/
def httpFailStatus (s : Nat) : Bool := decide (400 ≤ s ∧ s < 600)

/-- A transport-level failure of an attempt: network failure, or a status
that `raise_for_status` rejects. -/
def transportFail : HttpOutcome → Bool
  | .netFail => true
  | .resp s _ => httpFailStatus s

/-- `ImageService.generate` (src/services/image_service.py): POST the
primary body; only when the response arrives with a status other than 200
does it retry once with the `extra_body` shape.  A network failure of
either POST propagates uncaught.  `o1`/`o2` are the outcomes of the first
and (if issued) second request; the result is paired with the ordered list
of request shapes actually sent. -/
def plainGenerate (o1 o2 : HttpOutcome) : Except GenErr Nat × List ReqShape :=
  match o1 with
  | .netFail => (.error .network, [.primary])
  | .resp s b =>
    if s == 200 then (.ok b, [.primary])
    else
      match o2 with
      | .netFail => (.error .network, [.primary, .extraBody])
      | .resp s2 b2 =>
        if s2 == 200 then (.ok b2, [.primary, .extraBody])
        else (.error .http, [.primary, .extraBody])

/-- `EnhancedImageService.generate`
(src/services/image_service_enhanced.py): the first POST plus
`raise_for_status` is wrapped in `except requests.exceptions.RequestException`,
so both a network failure and a 4xx/5xx status trigger one retry with the
`extra_body` shape; the second attempt's `raise_for_status` is not caught. -/
def enhancedGenerate (o1 o2 : HttpOutcome) : Except GenErr Nat × List ReqShape :=
  match o1 with
  | .netFail =>
    match o2 with
    | .netFail => (.error .network, [.primary, .extraBody])
    | .resp s2 b2 =>
      if httpFailStatus s2 then (.error .http, [.primary, .extraBody])
      else (.ok b2, [.primary, .extraBody])
  | .resp s b =>
    if httpFailStatus s then
      match o2 with
      | .netFail => (.error .network, [.primary, .extraBody])
      | .resp s2 b2 =>
        if httpFailStatus s2 then (.error .http, [.primary, .extraBody])
        else (.ok b2, [.primary, .extraBody])
    else (.ok b, [.primary])

/-- C5 counterexample: a network-level failure of the first request to the
dedicated image endpoint of `ImageService.generate` propagates with no
retry at all — only one request (the primary shape) is ever sent, even
though a retry would have succeeded — contradicting the claim that any
transport-level failure is retried exactly once with the alternate shape. -/
theorem C5_counterexample :
    (plainGenerate .netFail (.resp 200 7)).2 = [ReqShape.primary] ∧
    [ReqShape.primary] ≠ [ReqShape.primary, ReqShape.extraBody] ∧
    (plainGenerate .netFail (.resp 200 7)).1 = .error GenErr.network ∧
    transportFail .netFail = true := by
  refine ⟨rfl, by decide, rfl, rfl⟩

/-- C5 amended: `EnhancedImageService.generate` retries exactly once with
the alternate (`extra_body`) shape on any transport-level failure of the
first request and never otherwise; `ImageService.generate` retries exactly
once on a non-200 response but propagates a network failure of the first
request without any retry; neither path ever issues more than two
requests. -/
theorem C5_retry_shape (o1 o2 : HttpOutcome) :
    ((enhancedGenerate o1 o2).2 =
      if transportFail o1 then [ReqShape.primary, ReqShape.extraBody]
      else [ReqShape.primary]) ∧
    ((plainGenerate o1 o2).2 =
      match o1 with
      | .netFail => [ReqShape.primary]
      | .resp s _ =>
        if s == 200 then [ReqShape.primary]
        else [ReqShape.primary, ReqShape.extraBody]) ∧
    (enhancedGenerate o1 o2).2.length ≤ 2 ∧
    (plainGenerate o1 o2).2.length ≤ 2 := by
  rcases o1 with _ | ⟨s, b⟩
  · rcases o2 with _ | ⟨s2, b2⟩
    · exact ⟨rfl, rfl, by decide, by decide⟩
    · by_cases h2 : httpFailStatus s2 = true <;>
        simp [enhancedGenerate, plainGenerate, transportFail, h2]
  · rcases o2 with _ | ⟨s2, b2⟩
    · by_cases h1 : httpFailStatus s = true <;>
        by_cases hs : (s == 200) = true <;>
        simp [enhancedGenerate, plainGenerate, transportFail, h1, hs]
    · by_cases h1 : httpFailStatus s = true <;>
        by_cases hs : (s == 200) = true <;>
        by_cases h2 : httpFailStatus s2 = true <;>
        by_cases hs2 : (s2 == 200) = true <;>
        simp [enhancedGenerate, plainGenerate, transportFail, h1, hs, h2, hs2]

/-! ## WAV concatenation (src/generate_podcast.py, combine_wav_files) -/

/-- A WAV file as the `wave` module sees it: the header parameters and the
raw PCM payload (a byte sequence).  `getnframes` divides the payload length
by the frame size. -/
structure WavFile where
  nchannels : Nat
  sampwidth : Nat
  framerate : Nat
  data : List Nat
deriving DecidableEq

/-- The frame size in bytes: `sampwidth * nchannels`. -/
def WavFile.frameSize (w : WavFile) : Nat := w.sampwidth * w.nchannels

/-- `Wave_read.getnframes()`: payload bytes divided by frame size. -/
def WavFile.nframes (w : WavFile) : Nat := w.data.length / w.frameSize

/-- `Wave_read.readframes(getnframes())`: returns exactly
`nframes * frameSize` bytes (a trailing partial frame is not returned). -/
def WavFile.readAll (w : WavFile) : List Nat :=
  w.data.take (w.nframes * w.frameSize)

/-- An open `Wave_write`: output parameters, the bytes written so far, and
the frame counter maintained by `writeframes` (`patchheader` stores this
counter in the final file). -/
structure WavWrite where
  nchannels : Nat
  sampwidth : Nat
  framerate : Nat
  data : List Nat
  framesWritten : Nat
deriving DecidableEq

/-- `Wave_write.writeframes(bytes)`: append the bytes and advance the frame
counter by `len(bytes) // (sampwidth * nchannels)`. -/
def WavWrite.write (o : WavWrite) (bytes : List Nat) : WavWrite :=
  { o with
      data := o.data ++ bytes
      framesWritten := o.framesWritten + bytes.length / (o.sampwidth * o.nchannels) }

/-- `combine_wav_files` (src/generate_podcast.py lines 94-116): with no
inputs print and return nothing; otherwise open the output with the first
file's parameters and write each input's full frame payload in list
order. -/
def combine_wav_files (inputs : List WavFile) : Option WavWrite :=
  match inputs with
  | [] => none
  | first :: _ =>
    let o0 : WavWrite := ⟨first.nchannels, first.sampwidth, first.framerate, [], 0⟩
    some (inputs.foldl (fun o w => o.write w.readAll) o0)

theorem combine_foldl_spec (o : WavWrite) (ws : List WavFile) :
    (ws.foldl (fun o w => o.write w.readAll) o).data
        = o.data ++ (ws.map WavFile.readAll).flatten ∧
    (ws.foldl (fun o w => o.write w.readAll) o).framesWritten
        = o.framesWritten
          + (ws.map (fun w => w.readAll.length / (o.sampwidth * o.nchannels))).sum ∧
    (ws.foldl (fun o w => o.write w.readAll) o).sampwidth = o.sampwidth ∧
    (ws.foldl (fun o w => o.write w.readAll) o).nchannels = o.nchannels := by
  induction ws generalizing o with
  | nil => simp
  | cons w rest ih =>
    simp only [List.foldl_cons, List.map_cons, List.flatten_cons, List.sum_cons]
    have hw : (o.write w.readAll).sampwidth = o.sampwidth := rfl
    have hc : (o.write w.readAll).nchannels = o.nchannels := rfl
    obtain ⟨h1, h2, h3, h4⟩ := ih (o.write w.readAll)
    refine ⟨?_, ?_, by rw [h3, hw], by rw [h4, hc]⟩
    · rw [h1]; simp [WavWrite.write]
    · rw [h2, hw, hc]; simp [WavWrite.write, Nat.add_assoc]

/-- C6: for a non-empty list of WAV chunks sharing the first chunk's channel
count and sample width (as all chunks of one run do: mono 16-bit 24 kHz),
the combined output holds exactly the chunks' payloads in input-list order
and its frame counter equals the sum of the chunks' frame counts. -/
theorem C6_combine_wav_files (inputs : List WavFile) (first : WavFile)
    (hne : inputs.head? = some first)
    (hfmt : ∀ w ∈ inputs, w.nchannels = first.nchannels ∧ w.sampwidth = first.sampwidth) :
    ∃ out, combine_wav_files inputs = some out ∧
      out.data = (inputs.map WavFile.readAll).flatten ∧
      out.framesWritten = (inputs.map WavFile.nframes).sum := by
  cases inputs with
  | nil => simp at hne
  | cons w ws =>
    have hw : w = first := by simpa using hne
    subst hw
    refine ⟨_, rfl, ?_, ?_⟩
    · exact (combine_foldl_spec _ _).1
    · rw [(combine_foldl_spec _ _).2.1]
      simp only [Nat.zero_add]
      congr 1
      apply List.map_congr_left
      intro x hx
      obtain ⟨hch, hsw⟩ := hfmt x hx
      have hfs : w.sampwidth * w.nchannels = x.frameSize := by
        rw [WavFile.frameSize, hch, hsw]
      have hlen : x.readAll.length = x.nframes * x.frameSize := by
        rw [WavFile.readAll, List.length_take]
        exact Nat.min_eq_left (Nat.div_mul_le_self _ _)
      rw [hfs, hlen]
      rcases Nat.eq_zero_or_pos x.frameSize with hz | hpos
      · simp [hz, WavFile.nframes]
      · exact Nat.mul_div_cancel _ hpos

/-- C6 witness: two concrete mono 16-bit 24 kHz chunks (4 and 2 payload
bytes) combine to 2 + 1 frames with the payloads in order. -/
theorem C6_combine_wav_files_witness :
    ∃ out, combine_wav_files [⟨1, 2, 24000, [0, 1, 2, 3]⟩, ⟨1, 2, 24000, [5, 6]⟩] = some out ∧
      out.data = ([⟨1, 2, 24000, [0, 1, 2, 3]⟩, ⟨1, 2, 24000, [5, 6]⟩].map WavFile.readAll).flatten ∧
      out.framesWritten = ([⟨1, 2, 24000, [0, 1, 2, 3]⟩, (⟨1, 2, 24000, [5, 6]⟩ : WavFile)].map WavFile.nframes).sum :=
  C6_combine_wav_files [⟨1, 2, 24000, [0, 1, 2, 3]⟩, ⟨1, 2, 24000, [5, 6]⟩]
    ⟨1, 2, 24000, [0, 1, 2, 3]⟩ (by decide) (by decide)

/-! ## Decimal rendering of natural numbers (Python `str(n)` / `f"{n:02d}"`,
and the `\d+` capture with `int(...)`) -/

/-- The decimal digit character for `n % 10`. -/
def digitChar (n : Nat) : Char :=
  if n = 0 then '0' else if n = 1 then '1' else if n = 2 then '2'
  else if n = 3 then '3' else if n = 4 then '4' else if n = 5 then '5'
  else if n = 6 then '6' else if n = 7 then '7' else if n = 8 then '8' else '9'

/-- Helper for `natToDigits`: structural recursion on a fuel bound, so that
the function reduces definitionally (the fuel `n + 1` always suffices). -/
def natToDigitsAux : Nat → Nat → List Char
  | 0, _ => []
  | fuel + 1, n =>
    if n < 10 then [digitChar n]
    else natToDigitsAux fuel (n / 10) ++ [digitChar (n % 10)]

/-- Decimal rendering of a natural number, as Python `str(n)`. -/
def natToDigits (n : Nat) : List Char := natToDigitsAux (n + 1) n

theorem natToDigitsAux_congr :
    ∀ f1 f2 n, n < f1 → n < f2 → natToDigitsAux f1 n = natToDigitsAux f2 n := by
  intro f1
  induction f1 with
  | zero => intro f2 n h1; omega
  | succ g ih =>
    intro f2 n h1 h2
    cases f2 with
    | zero => omega
    | succ g2 =>
      simp only [natToDigitsAux]
      by_cases hn : n < 10
      · simp [hn]
      · simp only [hn, if_false]
        rw [ih g2 (n / 10)
          (by have := Nat.div_lt_self (show 0 < n by omega) (show 1 < 10 by omega); omega)
          (by have := Nat.div_lt_self (show 0 < n by omega) (show 1 < 10 by omega); omega)]

theorem natToDigits_eq (n : Nat) :
    natToDigits n = if n < 10 then [digitChar n]
      else natToDigits (n / 10) ++ [digitChar (n % 10)] := by
  rw [natToDigits, natToDigits]
  show natToDigitsAux (n + 1) n = _
  rw [show natToDigitsAux (n + 1) n
      = if n < 10 then [digitChar n]
        else natToDigitsAux n (n / 10) ++ [digitChar (n % 10)] from rfl]
  by_cases hn : n < 10
  · simp [hn]
  · simp only [hn, if_false]
    rw [natToDigitsAux_congr n (n / 10 + 1) (n / 10)
      (by have := Nat.div_lt_self (show 0 < n by omega) (show 1 < 10 by omega); omega)
      (by omega)]

/-- Python `int(s)` on a digit string: fold decimal digits. -/
def digitsToNat (s : List Char) : Nat :=
  s.foldl (fun a c => a * 10 + (c.toNat - 48)) 0

theorem digitChar_toNat (n : Nat) (h : n < 10) : (digitChar n).toNat - 48 = n := by
  interval_cases n <;> decide

theorem digitChar_isDigit (n : Nat) (h : n < 10) : (digitChar n).isDigit = true := by
  interval_cases n <;> decide

theorem digitChar_ne_zero (n : Nat) (h0 : 0 < n) (h : n < 10) : digitChar n ≠ '0' := by
  interval_cases n <;> decide

theorem natToDigits_ne_nil (n : Nat) : natToDigits n ≠ [] := by
  rw [natToDigits_eq]
  split <;> simp

theorem natToDigits_all_digits (n : Nat) : ∀ c ∈ natToDigits n, c.isDigit = true := by
  induction n using Nat.strong_induction_on with
  | _ n ih =>
    rw [natToDigits_eq]
    split
    · intro c hc
      simp only [List.mem_singleton] at hc
      subst hc
      exact digitChar_isDigit n (by omega)
    · intro c hc
      rcases List.mem_append.mp hc with h | h
      · exact ih (n / 10) (Nat.div_lt_self (by omega) (by omega)) c h
      · simp only [List.mem_singleton] at h
        subst h
        exact digitChar_isDigit (n % 10) (Nat.mod_lt _ (by omega))

theorem digitsToNat_natToDigits (n : Nat) : digitsToNat (natToDigits n) = n := by
  induction n using Nat.strong_induction_on with
  | _ n ih =>
    rw [natToDigits_eq]
    split
    · simp only [digitsToNat, List.foldl_cons, List.foldl_nil, Nat.zero_mul, Nat.zero_add]
      exact digitChar_toNat n (by omega)
    · rw [digitsToNat, List.foldl_append]
      have hrec := ih (n / 10) (Nat.div_lt_self (by omega) (by omega))
      rw [digitsToNat] at hrec
      rw [hrec]
      simp only [List.foldl_cons, List.foldl_nil]
      rw [digitChar_toNat (n % 10) (Nat.mod_lt _ (by omega))]
      omega

theorem natToDigits_injective (m n : Nat) (h : natToDigits m = natToDigits n) : m = n := by
  have := digitsToNat_natToDigits m
  rw [h, digitsToNat_natToDigits] at this
  omega

theorem natToDigits_head_ne_zero (n : Nat) (h0 : 0 < n) :
    ∀ c, (natToDigits n).head? = some c → c ≠ '0' := by
  induction n using Nat.strong_induction_on with
  | _ n ih =>
    rw [natToDigits_eq]
    split
    · intro c hc
      simp only [List.head?] at hc
      cases hc
      exact digitChar_ne_zero n h0 (by omega)
    · intro c hc
      have hne := natToDigits_ne_nil (n / 10)
      cases hnd : natToDigits (n / 10) with
      | nil => exact absurd hnd hne
      | cons d ds =>
        rw [hnd] at hc
        simp only [List.cons_append, List.head?] at hc
        cases hc
        exact ih (n / 10) (Nat.div_lt_self (by omega) (by omega))
          (by omega) c (by rw [hnd]; rfl)

/-! ## Output manager (src/output_manager.py) -/

/-- One entry of a solution's `steps` list as `_add_step` records it
(the path fields are summarised by the size and type, which are the fields
the claims constrain). -/
structure StepInfo where
  name : List Char
  sizeMb : Rat
  fileType : List Char
deriving DecidableEq

/-- One solution record of `self.metadata["solutions"]`. -/
structure SolutionRec where
  number : Nat
  sname : List Char
  folder : List Char
  steps : List StepInfo
deriving DecidableEq

/-- The mutable state of an `OutputManager`: the `solutions` dict (a Python
dict, i.e. an insertion-ordered association list), the running totals, and
the base directory. -/
structure OMState where
  baseDir : List Char
  solutions : List (List Char × SolutionRec)
  totalFiles : Nat
  totalSizeMb : Rat
deriving DecidableEq

/-- Python `f"{n:02d}"`: zero-pad to two characters. -/
def format02 (n : Nat) : List Char :=
  if n < 10 then '0' :: natToDigits n else natToDigits n

/-- The dict key `f"solution_{n:02d}"` used throughout OutputManager. -/
def solutionKey (n : Nat) : List Char :=
  "solution_".toList ++ format02 n

/-- `name.replace(' ', '_').lower()` (ASCII lowering; the names used in the
repository are ASCII). -/
def sanitizeName (name : List Char) : List Char :=
  name.map (fun c => if c = ' ' then '_' else c.toLower)

/-- `OutputManager.create_solution_folder`: build the folder path, register
the solution record (with empty `steps`) under its key, return state and
folder. -/
def create_solution_folder (st : OMState) (n : Nat) (name : List Char) :
    OMState × List Char :=
  let folder := st.baseDir ++ '/' :: "solution_".toList ++ format02 n
      ++ '_' :: sanitizeName name
  ({ st with solutions := pyDictInsert (solutionKey n) ⟨n, name, folder, []⟩ st.solutions },
   folder)

/-- `OutputManager._get_solution_folder`: the registered folder, or the
`..._unknown` default. -/
def getSolutionFolder (st : OMState) (n : Nat) : List Char :=
  match pyDictGet st.solutions (solutionKey n) with
  | some r => r.folder
  | none => st.baseDir ++ '/' :: "solution_".toList ++ format02 n ++ "_unknown".toList

/-- `OutputManager._add_step`: append a step to the solution's record when
its key is registered, otherwise do nothing. -/
def addStep (st : OMState) (n : Nat) (s : StepInfo) : OMState :=
  if st.solutions.any (fun p => p.1 == solutionKey n) then
    { st with solutions := st.solutions.map (fun p =>
        if p.1 == solutionKey n then (p.1, { p.2 with steps := p.2.steps ++ [s] }) else p) }
  else st

/-- The extension table of `save_final_file`, with the fallback to the
source file's own extension. -/
def extFor (ftype origExt : List Char) : List Char :=
  match pyDictGet [("video".toList, ".mp4".toList), ("image".toList, ".png".toList),
      ("audio".toList, ".mp3".toList), ("pdf".toList, ".pdf".toList),
      ("text".toList, ".txt".toList)] ftype with
  | some e => e
  | none => origExt

/-- Bytes to the `size_mb` figure `file_size / (1024*1024)` (exact rational
in place of the Python float). -/
def mbOf (sizeBytes : Nat) : Rat := (sizeBytes : Rat) / (1024 * 1024)

/-- The step dictionary recorded by `save_final_file`. -/
def finalStep (ftype : List Char) (sizeBytes : Nat) : StepInfo :=
  ⟨"Final ".toList ++ ftype, mbOf sizeBytes, ftype⟩

/-- `OutputManager.save_final_file` (src/output_manager.py lines 55-92):
copy the artifact under the stable and timestamped names (file effects are
outside the state), record one step via `_add_step`, then bump
`total_files` by 1 and `total_size_mb` by the file's size in MB.  Returns
the new state and the main path. -/
def save_final_file (st : OMState) (sizeBytes : Nat) (n : Nat)
    (_solutionName ftype origExt : List Char) : OMState × List Char :=
  let folder := getSolutionFolder st n
  let mainPath := folder ++ "/final/solution_".toList ++ format02 n
      ++ "_final".toList ++ extFor ftype origExt
  let st1 := addStep st n (finalStep ftype sizeBytes)
  ({ st1 with
      totalFiles := st1.totalFiles + 1
      totalSizeMb := st1.totalSizeMb + mbOf sizeBytes },
   mainPath)

theorem format02_injective (m n : Nat) (h : format02 m = format02 n) : m = n := by
  have hhead : ∀ k, 10 ≤ k → (natToDigits k).head? ≠ some '0' := by
    intro k hk hc
    rcases hnd : (natToDigits k).head? with _ | c
    · rw [hnd] at hc; cases hc
    · rw [hnd] at hc
      cases hc
      exact natToDigits_head_ne_zero k (by omega) '0' hnd rfl
  rw [format02, format02] at h
  split at h <;> split at h
  · exact natToDigits_injective m n (by simpa using h)
  · exfalso
    apply hhead n (by omega)
    rw [← h]
    rfl
  · exfalso
    apply hhead m (by omega)
    rw [h]
    rfl
  · exact natToDigits_injective m n h

theorem solutionKey_injective (m n : Nat) (h : solutionKey m = solutionKey n) : m = n := by
  rw [solutionKey, solutionKey] at h
  exact format02_injective m n (List.append_cancel_left h)

theorem find?_map_update (l : List (List Char × SolutionRec)) (k : List Char)
    (f : SolutionRec → SolutionRec) :
    (l.map (fun p => if p.1 == k then (p.1, f p.2) else p)).find? (fun p => p.1 == k)
      = (l.find? (fun p => p.1 == k)).map (fun p => (p.1, f p.2)) := by
  induction l with
  | nil => rfl
  | cons p rest ih =>
    by_cases hp : (p.1 == k) = true
    · simp [List.find?, hp]
    · have hp' : (p.1 == k) = false := by simpa using hp
      simp only [List.map_cons, hp', Bool.false_eq_true, if_false, List.find?]
      simpa using ih

theorem find?_map_update_ne (l : List (List Char × SolutionRec)) (k k' : List Char)
    (hkk : k ≠ k') (f : SolutionRec → SolutionRec) :
    (l.map (fun p => if p.1 == k then (p.1, f p.2) else p)).find? (fun p => p.1 == k')
      = l.find? (fun p => p.1 == k') := by
  induction l with
  | nil => rfl
  | cons p rest ih =>
    by_cases hp : (p.1 == k') = true
    · have hpk : (p.1 == k) = false := by
        apply beq_eq_false_iff_ne.mpr
        intro hc
        apply hkk
        rw [← hc]
        exact beq_iff_eq.mp hp
      simp [List.find?, hp, hpk]
    · have hp' : (p.1 == k') = false := by simpa using hp
      by_cases hpk : (p.1 == k) = true
      · simp only [List.map_cons, hpk, if_true, List.find?, hp']
        simpa using ih
      · simp only [List.map_cons, hpk, Bool.false_eq_true, if_false, List.find?, hp']
        simpa using ih

theorem addStep_totals (st : OMState) (n : Nat) (s : StepInfo) :
    (addStep st n s).totalFiles = st.totalFiles ∧
    (addStep st n s).totalSizeMb = st.totalSizeMb ∧
    (addStep st n s).baseDir = st.baseDir := by
  rw [addStep]
  split <;> exact ⟨rfl, rfl, rfl⟩

theorem addStep_lookup_some (st : OMState) (n : Nat) (s : StepInfo) (r : SolutionRec)
    (h : pyDictGet st.solutions (solutionKey n) = some r) :
    pyDictGet (addStep st n s).solutions (solutionKey n)
      = some { r with steps := r.steps ++ [s] } := by
  obtain ⟨p, hp, hpr⟩ : ∃ p, st.solutions.find? (fun p => p.1 == solutionKey n) = some p
      ∧ p.2 = r := by
    rw [pyDictGet] at h
    rcases hf : st.solutions.find? (fun p => p.1 == solutionKey n) with _ | p
    · rw [hf] at h; cases h
    · rw [hf] at h
      exact ⟨p, hf, by simpa using h⟩
  have hany : st.solutions.any (fun p => p.1 == solutionKey n) = true := by
    have hpq := List.find?_some hp
    have hmem := List.mem_of_find?_eq_some hp
    rw [List.any_eq_true]
    exact ⟨p, hmem, hpq⟩
  rw [addStep, if_pos hany]
  rw [pyDictGet]
  rw [find?_map_update st.solutions (solutionKey n)
    (fun q => { q with steps := q.steps ++ [s] })]
  rw [hp]
  simp [hpr]

theorem addStep_lookup_none (st : OMState) (n : Nat) (s : StepInfo)
    (h : pyDictGet st.solutions (solutionKey n) = none) :
    addStep st n s = st := by
  have hnone : st.solutions.find? (fun p => p.1 == solutionKey n) = none := by
    rw [pyDictGet] at h
    rcases hf : st.solutions.find? (fun p => p.1 == solutionKey n) with _ | p
    · exact hf
    · rw [hf] at h; cases h
  have hany : st.solutions.any (fun p => p.1 == solutionKey n) = false := by
    rw [List.any_eq_false]
    intro x hx
    have := List.find?_eq_none.mp hnone x hx
    simpa using this
  rw [addStep, if_neg (by simp [hany])]

theorem addStep_lookup_other (st : OMState) (n m : Nat) (s : StepInfo) (hmn : m ≠ n) :
    pyDictGet (addStep st n s).solutions (solutionKey m)
      = pyDictGet st.solutions (solutionKey m) := by
  rw [addStep]
  split
  · rw [pyDictGet, pyDictGet]
    rw [find?_map_update_ne st.solutions (solutionKey n) (solutionKey m)
      (fun hc => hmn (solutionKey_injective m n hc.symm))
      (fun q => { q with steps := q.steps ++ [s] })]
  · rfl

/-- C10: a successful `save_final_file` bumps `total_files` by exactly 1 and
`total_size_mb` by the saved file's size in MB; when the solution was
registered (via `create_solution_folder`) exactly one step is appended to
its `steps`, when it was not registered the solutions dict is unchanged;
and no other solution's record is touched. -/
theorem C10_save_final_file (st : OMState) (n sizeBytes : Nat)
    (sname ftype origExt : List Char) :
    ((save_final_file st sizeBytes n sname ftype origExt).1.totalFiles
        = st.totalFiles + 1) ∧
    ((save_final_file st sizeBytes n sname ftype origExt).1.totalSizeMb
        = st.totalSizeMb + mbOf sizeBytes) ∧
    (∀ r, pyDictGet st.solutions (solutionKey n) = some r →
      pyDictGet (save_final_file st sizeBytes n sname ftype origExt).1.solutions
          (solutionKey n)
        = some { r with steps := r.steps ++ [finalStep ftype sizeBytes] }) ∧
    (pyDictGet st.solutions (solutionKey n) = none →
      (save_final_file st sizeBytes n sname ftype origExt).1.solutions = st.solutions) ∧
    (∀ m, m ≠ n →
      pyDictGet (save_final_file st sizeBytes n sname ftype origExt).1.solutions
          (solutionKey m)
        = pyDictGet st.solutions (solutionKey m)) := by
  refine ⟨?_, ?_, ?_, ?_, ?_⟩
  · show (addStep st n (finalStep ftype sizeBytes)).totalFiles + 1 = st.totalFiles + 1
    rw [(addStep_totals st n (finalStep ftype sizeBytes)).1]
  · show (addStep st n (finalStep ftype sizeBytes)).totalSizeMb + mbOf sizeBytes
        = st.totalSizeMb + mbOf sizeBytes
    rw [(addStep_totals st n (finalStep ftype sizeBytes)).2.1]
  · intro r hr
    exact addStep_lookup_some st n (finalStep ftype sizeBytes) r hr
  · intro hnone
    show (addStep st n (finalStep ftype sizeBytes)).solutions = st.solutions
    rw [addStep_lookup_none st n (finalStep ftype sizeBytes) hnone]
  · intro m hm
    exact addStep_lookup_other st n m (finalStep ftype sizeBytes) hm

/-- C10 witness: a concrete state with solution 1 registered and solution 2
absent, saving a 2 MiB video. -/
theorem C10_save_final_file_witness :
    pyDictGet (OMState.mk "outputs".toList
        [(solutionKey 1, ⟨1, "Video".toList, "f".toList, []⟩)] 0 0).solutions
        (solutionKey 1) = some ⟨1, "Video".toList, "f".toList, []⟩ ∧
    pyDictGet (save_final_file (OMState.mk "outputs".toList
        [(solutionKey 1, ⟨1, "Video".toList, "f".toList, []⟩)] 0 0)
        2097152 1 "Video".toList "video".toList ".mp4".toList).1.solutions
        (solutionKey 1)
      = some ⟨1, "Video".toList, "f".toList, [finalStep "video".toList 2097152]⟩ ∧
    (save_final_file (OMState.mk "outputs".toList
        [(solutionKey 1, ⟨1, "Video".toList, "f".toList, []⟩)] 0 0)
        2097152 1 "Video".toList "video".toList ".mp4".toList).1.totalFiles = 0 + 1 := by
  refine ⟨by rfl, ?_, ?_⟩
  · exact (C10_save_final_file (OMState.mk "outputs".toList
      [(solutionKey 1, ⟨1, "Video".toList, "f".toList, []⟩)] 0 0)
      1 2097152 "Video".toList "video".toList ".mp4".toList).2.2.1
      ⟨1, "Video".toList, "f".toList, []⟩ (by rfl)
  · exact (C10_save_final_file (OMState.mk "outputs".toList
      [(solutionKey 1, ⟨1, "Video".toList, "f".toList, []⟩)] 0 0)
      1 2097152 "Video".toList "video".toList ".mp4".toList).1

/-! ## Bulleted dialogue script parsing (src/generate_podcast.py,
parse_script) -/

/-- The literal lead of the dialogue line regex
`^\*   \*\*Lời thoại \((Chuyên gia lan|Bà Nhung)\):\*\* (.*)`. -/
def dlgLineMark : List Char := "*   **Lời thoại (".toList

/-- First alternative of the speaker group. -/
def speakerA : List Char := "Chuyên gia lan".toList

/-- Second alternative of the speaker group. -/
def speakerB : List Char := "Bà Nhung".toList

/-- The literal between the speaker group and the utterance capture. -/
def closeMark : List Char := "):** ".toList

/-- The anchored match of the dialogue-line regex against one line (lines
are modelled without their trailing newline, which `(.*)` never captures):
on success, the speaker group and the rest-of-line capture. -/
def matchDialogueLine (line : List Char) : Option (List Char × List Char) :=
  if leadsWith (dlgLineMark ++ speakerA ++ closeMark) line then
    some (speakerA, line.drop (dlgLineMark ++ speakerA ++ closeMark).length)
  else if leadsWith (dlgLineMark ++ speakerB ++ closeMark) line then
    some (speakerB, line.drop (dlgLineMark ++ speakerB ++ closeMark).length)
  else none

/-- `re.sub(r'^\(.*\)\s*', '', dialogue_text)` on a newline-free string:
when the text starts with `(` and contains a `)`, the greedy `.*` consumes
up to the LAST `)`, and the trailing `\s*` then eats the following
whitespace; otherwise the text is unchanged. -/
def cleanDialogue (s : List Char) : List Char :=
  match s with
  | '(' :: rest =>
    if rest.contains ')' then
      ((('(' :: rest).reverse.takeWhile (fun c => !(c == ')'))).reverse).dropWhile isPySpace
    else '(' :: rest
  | other => other

/-- `parse_script` (src/generate_podcast.py lines 22-45), over the list of
lines of the script file: keep each line matching the dialogue regex whose
utterance, stripped and with a leading parenthetical removed, is non-empty;
record the stripped speaker with the cleaned dialogue. -/
def parse_script (lines : List (List Char)) : List (List Char × List Char) :=
  lines.filterMap (fun line =>
    match matchDialogueLine line with
    | none => none
    | some (sp, txt) =>
      let cleaned := cleanDialogue (pyStrip txt)
      if cleaned.isEmpty then none else some (pyStrip sp, cleaned))

theorem isPySpace_ne_rparen (c : Char) (h : isPySpace c = true) : c ≠ ')' := by
  intro hc
  subst hc
  simp [isPySpace] at h

theorem matchDialogueLine_B (u : List Char) :
    matchDialogueLine (dlgLineMark ++ speakerB ++ closeMark ++ u) = some (speakerB, u) := rfl

theorem matchDialogueLine_A (u : List Char) :
    matchDialogueLine (dlgLineMark ++ speakerA ++ closeMark ++ u) = some (speakerA, u) := rfl

theorem dropWhile_cons_neg (p : Char → Bool) (c : Char) (t : List Char) (h : p c = false) :
    (c :: t).dropWhile p = c :: t := by
  simp [List.dropWhile, h]

theorem pyStrip_sandwich (c : Char) (t : List Char) (d : Char) (s : List Char)
    (hc : isPySpace c = false) (hd : isPySpace d = false)
    (hrev : (c :: t).reverse = d :: s) :
    pyStrip (c :: t) = c :: t := by
  rw [pyStrip, dropWhile_cons_neg _ _ _ hc, dropTrail, hrev,
    dropWhile_cons_neg _ _ _ hd, ← hrev, List.reverse_reverse]

/-- C8 amended: a matching dialogue line whose utterance starts with a
parenthetical stage direction, when the text after the direction contains
no further `)`, parses to that text with direction and following
whitespace removed.  (`ws` is the whitespace run after the `)`; the
remainder `rest` is non-empty, does not begin or end in whitespace, and
contains no `)`.) -/
theorem C8_leading_parenthetical_stripped (u ws rest : List Char)
    (_hu : ')' ∉ u) (hr : ')' ∉ rest)
    (hws : ∀ c ∈ ws, isPySpace c = true)
    (hne : rest ≠ [])
    (hh : ∀ c, rest.head? = some c → isPySpace c = false)
    (hl : ∀ c, rest.getLast? = some c → isPySpace c = false) :
    parse_script [dlgLineMark ++ speakerB ++ closeMark
        ++ ('(' :: (u ++ ')' :: (ws ++ rest)))]
      = [(speakerB, rest)] := by
  obtain ⟨rh, rt, hrest⟩ := List.exists_cons_of_ne_nil hne
  have hrevne : rest.reverse ≠ [] := by simp [hne]
  obtain ⟨lc, ls, hrev⟩ := List.exists_cons_of_ne_nil hrevne
  have hlc : isPySpace lc = false := by
    apply hl
    rw [List.getLast?_eq_head?_reverse, hrev]
    rfl
  have hrh : isPySpace rh = false := by
    apply hh
    rw [hrest]
    rfl
  have hutter : pyStrip ('(' :: (u ++ ')' :: (ws ++ rest)))
      = '(' :: (u ++ ')' :: (ws ++ rest)) := by
    apply pyStrip_sandwich _ _ lc (ls ++ ws.reverse ++ ')' :: (u.reverse ++ ['(']))
      (by decide) hlc
    simp [List.reverse_cons, List.reverse_append, hrev, List.append_assoc]
  have hclean : cleanDialogue ('(' :: (u ++ ')' :: (ws ++ rest))) = rest := by
    rw [cleanDialogue]
    rw [if_pos (by
      show (u ++ ')' :: (ws ++ rest)).contains ')' = true
      simp [List.elem_iff])]
    have hsplit : ('(' :: (u ++ ')' :: (ws ++ rest))).reverse
        = (rest.reverse ++ ws.reverse) ++ ')' :: (u.reverse ++ ['(']) := by
      simp [List.reverse_cons, List.reverse_append, List.append_assoc]
    rw [hsplit, takeWhile_append_stop _ _ _ _
      (by
        intro x hx
        rcases List.mem_append.mp hx with hx | hx
        · have : x ∈ rest := List.mem_reverse.mp hx
          simp only [Bool.not_eq_true']
          rw [beq_eq_false_iff_ne]
          intro hc
          subst hc
          exact hr this
        · have : x ∈ ws := List.mem_reverse.mp hx
          simp only [Bool.not_eq_true']
          rw [beq_eq_false_iff_ne]
          exact isPySpace_ne_rparen x (hws x this))
      (by decide)]
    rw [List.reverse_append, List.reverse_reverse, List.reverse_reverse]
    rw [hrest]
    rw [dropWhile_append_stop _ _ _ _ hws hrh]
  rw [parse_script]
  simp only [List.filterMap_cons, matchDialogueLine_B]
  rw [hutter, hclean]
  rw [if_neg (by simp [hrest])]
  rfl

/-- C8 witness: the claim's own example, "(laughs) Hello there", parses to
"Hello there". -/
theorem C8_leading_parenthetical_stripped_witness :
    parse_script [dlgLineMark ++ speakerB ++ closeMark
        ++ ('(' :: ("laughs".toList ++ ')' :: ([' '] ++ "Hello there".toList)))]
      = [(speakerB, "Hello there".toList)] :=
  C8_leading_parenthetical_stripped "laughs".toList [' '] "Hello there".toList
    (by decide) (by decide) (by decide) (by decide) (by decide) (by decide)

/-- C8 counterexample: for the utterance "(laughs) See (b) now" the greedy
`^\(.*\)\s*` strips through the LAST `)`, so the parser returns "now", not
"See (b) now" as the claim (universally quantified over lines whose
utterance begins with a parenthetical) requires. -/
theorem C8_counterexample :
    parse_script [dlgLineMark ++ speakerB ++ closeMark ++ "(laughs) See (b) now".toList]
      = [(speakerB, "now".toList)] ∧
    parse_script [dlgLineMark ++ speakerB ++ closeMark ++ "(laughs) See (b) now".toList]
      ≠ [(speakerB, "See (b) now".toList)] := by
  constructor
  · rfl
  · decide

/-- C9: a line matching the dialogue pattern whose utterance strips to the
empty string (entirely a parenthetical stage direction) is omitted from the
result entirely: parsing with the line inserted equals parsing without it. -/
theorem C9_empty_after_clean_omitted (sp u : List Char)
    (hsp : sp = speakerA ∨ sp = speakerB)
    (hclean : cleanDialogue (pyStrip u) = [])
    (pre post : List (List Char)) :
    parse_script (pre ++ (dlgLineMark ++ sp ++ closeMark ++ u) :: post)
      = parse_script (pre ++ post) := by
  rw [parse_script, parse_script, List.filterMap_append, List.filterMap_append]
  congr 1
  rw [List.filterMap_cons]
  rcases hsp with h | h <;> subst h
  · rw [matchDialogueLine_A]
    simp only [hclean, List.isEmpty_nil, if_true]
  · rw [matchDialogueLine_B]
    simp only [hclean, List.isEmpty_nil, if_true]

/-- C9 witness: a script with one normal line and one line whose utterance
is entirely a stage direction; the all-parenthetical line contributes
nothing. -/
theorem C9_empty_after_clean_omitted_witness :
    parse_script [dlgLineMark ++ speakerB ++ closeMark ++ "Chào anh".toList,
        dlgLineMark ++ speakerA ++ closeMark ++ "(cười)".toList]
      = parse_script [dlgLineMark ++ speakerB ++ closeMark ++ "Chào anh".toList] := by
  have h := C9_empty_after_clean_omitted speakerA "(cười)".toList
    (Or.inl rfl) (by decide)
    [dlgLineMark ++ speakerB ++ closeMark ++ "Chào anh".toList] []
  simpa using h

/-! ## The podcast entry point (src/generate_podcast.py, main):
voice lookup loop and the zero-dialogue halt -/

/-- The `VOICES` table of src/generate_podcast.py. -/
def VOICES : List (List Char × List Char) :=
  [("Chuyên gia Lan".toList, "achernar".toList),
   ("bà Nhung".toList, "gacrux".toList)]

/-- `VOICES.get(speaker)`. -/
def lookupVoice (sp : List Char) : Option (List Char) := pyDictGet VOICES sp

/-- Tags for the entries appended to `audio_files` by `main`. -/
inductive Chunk
  | silenceStart
  | audio (i : Nat)
  | silenceAfter (i : Nat)
deriving DecidableEq

/-- One observable run of `main`: the indices of the dialogue lines for
which a TTS request was issued (`generate_audio_chunk` posts before it can
fail), the `audio_files` contents, the speakers warned about, the
zero-match report, and whether `combine_wav_files` was reached. -/
structure PodcastRun where
  netCalls : List Nat
  chunks : List Chunk
  warnings : List (List Char)
  report : Option (List Char)
  combined : Bool
deriving DecidableEq

/-- The message printed by `main` when no dialogues were found. -/
def noDialoguesMsg : List Char :=
  "No dialogues were found. Please check the script file format and path.".toList

/-- The per-line loop of `main` (src/generate_podcast.py lines 143-162),
over the enumerated dialogue list: unmapped speakers are warned and
skipped; mapped speakers get a TTS call, and on success (`ok i`) the chunk
and its trailing silence are appended.  Returns (net calls, chunks,
warnings). -/
def mainLoopFrom (ok : Nat → Bool) :
    Nat → List (List Char × List Char) → List Nat × List Chunk × List (List Char)
  | _, [] => ([], [], [])
  | i, (sp, _txt) :: rest =>
    let r := mainLoopFrom ok (i + 1) rest
    match lookupVoice sp with
    | none => (r.1, r.2.1, sp :: r.2.2)
    | some _ =>
      if ok i then (i :: r.1, .audio i :: .silenceAfter i :: r.2.1, r.2.2)
      else (i :: r.1, r.2.1, r.2.2)

/-- `main` after parsing (src/generate_podcast.py lines 129-165): with no
dialogues, report and return before any network call; otherwise run the
loop (with the initial silence chunk first) and combine. -/
def mainLoop (ok : Nat → Bool) (ds : List (List Char × List Char)) : PodcastRun :=
  if ds.isEmpty then ⟨[], [], [], some noDialoguesMsg, false⟩
  else
    let r := mainLoopFrom ok 0 ds
    ⟨r.1, .silenceStart :: r.2.1, r.2.2, none, true⟩

/-- `main` (src/generate_podcast.py lines 120-172): parse the script file
(`none` models `FileNotFoundError`, handled as no dialogues), then the
dialogue loop.  `ok i` tells whether the i-th TTS call succeeded. -/
def mainModel (scriptLines : Option (List (List Char))) (ok : Nat → Bool) : PodcastRun :=
  match scriptLines with
  | none => ⟨[], [], [], some noDialoguesMsg, false⟩
  | some ls => mainLoop ok (parse_script ls)

theorem mainLoopFrom_netCalls_mem (ok : Nat → Bool) (ds : List (List Char × List Char)) :
    ∀ i0 j, j ∈ (mainLoopFrom ok i0 ds).1 →
      ∃ k, ∃ h : k < ds.length, j = i0 + k ∧ lookupVoice (ds.get ⟨k, h⟩).1 ≠ none := by
  induction ds with
  | nil => intro i0 j hj; simp [mainLoopFrom] at hj
  | cons d rest ih =>
    intro i0 j hj
    rw [mainLoopFrom] at hj
    rcases hv : lookupVoice d.1 with _ | v
    · rw [hv] at hj
      obtain ⟨k, hk, hjk, hne⟩ := ih (i0 + 1) j hj
      exact ⟨k + 1, by simpa using Nat.succ_lt_succ hk, by omega, by simpa using hne⟩
    · rw [hv] at hj
      by_cases hok : ok i0 = true
      · rw [if_pos hok] at hj
        rcases List.mem_cons.mp hj with hj0 | hj'
        · exact ⟨0, by simp, by omega, by simp [hv]⟩
        · obtain ⟨k, hk, hjk, hne⟩ := ih (i0 + 1) j hj'
          exact ⟨k + 1, by simpa using Nat.succ_lt_succ hk, by omega, by simpa using hne⟩
      · rw [if_neg hok] at hj
        rcases List.mem_cons.mp hj with hj0 | hj'
        · exact ⟨0, by simp, by omega, by simp [hv]⟩
        · obtain ⟨k, hk, hjk, hne⟩ := ih (i0 + 1) j hj'
          exact ⟨k + 1, by simpa using Nat.succ_lt_succ hk, by omega, by simpa using hne⟩

theorem mainLoopFrom_audio_mem (ok : Nat → Bool) (ds : List (List Char × List Char)) :
    ∀ i0 j, Chunk.audio j ∈ (mainLoopFrom ok i0 ds).2.1 →
      ∃ k, ∃ h : k < ds.length, j = i0 + k ∧ lookupVoice (ds.get ⟨k, h⟩).1 ≠ none ∧ ok j = true := by
  induction ds with
  | nil => intro i0 j hj; simp [mainLoopFrom] at hj
  | cons d rest ih =>
    intro i0 j hj
    rw [mainLoopFrom] at hj
    rcases hv : lookupVoice d.1 with _ | v
    · rw [hv] at hj
      obtain ⟨k, hk, hjk, hne, hok⟩ := ih (i0 + 1) j hj
      exact ⟨k + 1, by simpa using Nat.succ_lt_succ hk, by omega, by simpa using hne, hok⟩
    · rw [hv] at hj
      by_cases hok : ok i0 = true
      · rw [if_pos hok] at hj
        rcases List.mem_cons.mp hj with hj0 | hj' 
        · cases hj0
          exact ⟨0, by simp, by omega, by simp [hv], hok⟩
        · rcases List.mem_cons.mp hj' with hj0 | hj''
          · cases hj0
          · obtain ⟨k, hk, hjk, hne, hok'⟩ := ih (i0 + 1) j hj''
            exact ⟨k + 1, by simpa using Nat.succ_lt_succ hk, by omega, by simpa using hne, hok'⟩
      · rw [if_neg hok] at hj
        obtain ⟨k, hk, hjk, hne, hok'⟩ := ih (i0 + 1) j hj
        exact ⟨k + 1, by simpa using Nat.succ_lt_succ hk, by omega, by simpa using hne, hok'⟩

theorem mainLoopFrom_warned (ok : Nat → Bool) (ds : List (List Char × List Char)) :
    ∀ i0 k, ∀ h : k < ds.length, lookupVoice (ds.get ⟨k, h⟩).1 = none →
      (ds.get ⟨k, h⟩).1 ∈ (mainLoopFrom ok i0 ds).2.2 := by
  induction ds with
  | nil => intro i0 k h; simp at h
  | cons d rest ih =>
    intro i0 k h hk
    rw [mainLoopFrom]
    cases k with
    | zero =>
      simp only [List.get] at hk ⊢
      rw [hk]
      simp
    | succ k' =>
      simp only [List.get] at hk ⊢
      have := ih (i0 + 1) k' (by simpa using h) hk
      rcases hv : lookupVoice d.1 with _ | v
      · simp only [hv]
        exact List.mem_cons_of_mem _ this
      · simp only [hv]
        by_cases hok : ok i0 = true
        · rw [if_pos hok]
          simpa using this
        · rw [if_neg hok]
          simpa using this

theorem mainLoopFrom_audio_of_ok (ok : Nat → Bool) (ds : List (List Char × List Char)) :
    ∀ i0 k, ∀ h : k < ds.length, lookupVoice (ds.get ⟨k, h⟩).1 ≠ none →
      ok (i0 + k) = true → Chunk.audio (i0 + k) ∈ (mainLoopFrom ok i0 ds).2.1 := by
  induction ds with
  | nil => intro i0 k h; simp at h
  | cons d rest ih =>
    intro i0 k h hk hok
    rw [mainLoopFrom]
    cases k with
    | zero =>
      simp only [List.get] at hk
      rcases hv : lookupVoice d.1 with _ | v
      · exact absurd hv hk
      · simp only [hv]
        rw [if_pos (by simpa using hok)]
        simp
    | succ k' =>
      simp only [List.get] at hk
      have := ih (i0 + 1) k' (by simpa using h) hk (by
        have : i0 + 1 + k' = i0 + (k' + 1) := by omega
        rw [this]
        exact hok)
      have harr : i0 + 1 + k' = i0 + (k' + 1) := by omega
      rw [harr] at this
      rcases hv : lookupVoice d.1 with _ | v
      · simp only [hv]
        exact this
      · simp only [hv]
        by_cases hok0 : ok i0 = true
        · rw [if_pos hok0]
          exact List.mem_cons_of_mem _ (List.mem_cons_of_mem _ (by simpa using this))
        · rw [if_neg hok0]
          simpa using this

/-- C7: in the synthesis loop of `main`, every dialogue line whose speaker
has no configured voice is skipped — no TTS request, no audio chunk, one
warning naming the speaker — while every line with a configured voice and a
successful synthesis still contributes its audio chunk, and the run
proceeds to combining (it is never aborted). -/
theorem C7_unmapped_speaker_skipped (ds : List (List Char × List Char)) (ok : Nat → Bool)
    (hne : ds ≠ []) :
    (∀ k, ∀ h : k < ds.length, lookupVoice (ds.get ⟨k, h⟩).1 = none →
        Chunk.audio k ∉ (mainLoop ok ds).chunks ∧
        k ∉ (mainLoop ok ds).netCalls ∧
        (ds.get ⟨k, h⟩).1 ∈ (mainLoop ok ds).warnings) ∧
    (∀ k, ∀ h : k < ds.length, lookupVoice (ds.get ⟨k, h⟩).1 ≠ none → ok k = true →
        Chunk.audio k ∈ (mainLoop ok ds).chunks) ∧
    (mainLoop ok ds).combined = true := by
  have hie : ds.isEmpty = false := by
    cases ds with
    | nil => exact absurd rfl hne
    | cons d rest => rfl
  rw [mainLoop, hie]
  simp only [Bool.false_eq_true, if_false]
  refine ⟨?_, ?_, by trivial⟩
  · intro k h hk
    refine ⟨?_, ?_, ?_⟩
    · intro hmem
      rcases List.mem_cons.mp hmem with hc | hc
      · cases hc
      · obtain ⟨k', hk', hkk, hne', hok'⟩ := mainLoopFrom_audio_mem ok ds 0 k hc
        have : k' = k := by omega
        subst this
        exact hne' hk
    · intro hmem
      obtain ⟨k', hk', hkk, hne'⟩ := mainLoopFrom_netCalls_mem ok ds 0 k hmem
      have : k' = k := by omega
      subst this
      exact hne' hk
    · exact mainLoopFrom_warned ok ds 0 k h hk
  · intro k h hk hok
    have := mainLoopFrom_audio_of_ok ok ds 0 k h hk (by simpa using hok)
    simp only [Nat.zero_add] at this
    exact List.mem_cons_of_mem _ this
  
/-- C7 witness: a two-line dialogue list where line 0 has the configured
voice and line 1 has an unconfigured speaker, with all TTS calls
succeeding. -/
theorem C7_unmapped_speaker_skipped_witness :
    (Chunk.audio 1 ∉ (mainLoop (fun _ => true)
        [("Chuyên gia Lan".toList, "xin chào".toList),
         ("Người dẫn".toList, "hello".toList)]).chunks ∧
      1 ∉ (mainLoop (fun _ => true)
        [("Chuyên gia Lan".toList, "xin chào".toList),
         ("Người dẫn".toList, "hello".toList)]).netCalls ∧
      "Người dẫn".toList ∈ (mainLoop (fun _ => true)
        [("Chuyên gia Lan".toList, "xin chào".toList),
         ("Người dẫn".toList, "hello".toList)]).warnings) ∧
    Chunk.audio 0 ∈ (mainLoop (fun _ => true)
        [("Chuyên gia Lan".toList, "xin chào".toList),
         ("Người dẫn".toList, "hello".toList)]).chunks ∧
    (mainLoop (fun _ => true)
        [("Chuyên gia Lan".toList, "xin chào".toList),
         ("Người dẫn".toList, "hello".toList)]).combined = true := by
  have h := C7_unmapped_speaker_skipped
    [("Chuyên gia Lan".toList, "xin chào".toList),
     ("Người dẫn".toList, "hello".toList)] (fun _ => true) (by decide)
  exact ⟨h.1 1 (by decide) (by decide), h.2.1 0 (by decide) (by decide) rfl, h.2.2⟩

/-- C1 amended (the podcast pipeline half): when parsing yields no dialogue
lines (or the script file is missing), `main` reports the zero-match
condition and returns before any TTS network request and before combining. -/
theorem C1_zero_dialogues_halt (scriptLines : Option (List (List Char))) (ok : Nat → Bool)
    (h : ∀ ls, scriptLines = some ls → parse_script ls = []) :
    (mainModel scriptLines ok).netCalls = [] ∧
    (mainModel scriptLines ok).report = some noDialoguesMsg ∧
    (mainModel scriptLines ok).combined = false := by
  cases scriptLines with
  | none => exact ⟨rfl, rfl, rfl⟩
  | some ls =>
    have hp := h ls rfl
    rw [mainModel, hp]
    exact ⟨rfl, rfl, rfl⟩

/-- C1 amended witness: a one-line script matching nothing. -/
theorem C1_zero_dialogues_halt_witness :
    (mainModel (some ["hello world".toList]) (fun _ => true)).netCalls = [] ∧
    (mainModel (some ["hello world".toList]) (fun _ => true)).report = some noDialoguesMsg ∧
    (mainModel (some ["hello world".toList]) (fun _ => true)).combined = false :=
  C1_zero_dialogues_halt (some ["hello world".toList]) (fun _ => true)
    (by intro ls hls; cases hls; rfl)

/-! ## Bracketed segment script parsing (src/solution.py, parse_segments)

The regex
`\[Segment (\d+).*?\]\s*Visual:\s*(.*?)\s*Dialogue:\s*(.*?)(?=\[Segment|\Z)`
with `re.DOTALL` is embedded as a character-level scan: each lazy
quantifier bounded by a literal consumes exactly the text up to the first
occurrence of that literal.  The embedding agrees with `re.findall` on
scripts whose field texts avoid the delimiter literals (no `[` in visual or
dialogue text, no `Dialogue:` inside the visual text); outside that class
the Python engine's backtracking can resynchronise differently, which the
well-formedness hypotheses of the theorems below exclude. -/

/-- The literal `[Segment ` opening a block (also the lookahead,
which uses the same prefix). -/
def segMark : List Char := "[Segment ".toList

/-- The literal `]` bounding the lazy `.*?` after the index. -/
def rbMark : List Char := "]".toList

/-- The literal `Visual:`. -/
def visualMark : List Char := "Visual:".toList

/-- The literal `Dialogue:`. -/
def dlgMark : List Char := "Dialogue:".toList

/-- The value of one parsed segment: the `visual` and `dialogue` strings of
the dict built by `parse_segments`. -/
structure SegInfo where
  visual : List Char
  dialogue : List Char
deriving DecidableEq

/-- One `findall` step and the continuation of the scan, starting just
after an occurrence of `[Segment `: read the `\d+` capture, skip the lazy
`.*?` to the first `]`, require `\s*` then `Visual:`, capture lazily up to
the first `Dialogue:` (group 2, then stripped like the source does), and
capture up to the next `[Segment ` or the end (group 3, then stripped).
The fuel only bounds the number of blocks and is supplied large enough by
`parse_segments`. -/
def parseAfterMark : Nat → List Char → List (Nat × SegInfo)
  | 0, _ => []
  | fuel + 1, r1 =>
    let digits := r1.takeWhile Char.isDigit
    if digits.isEmpty then
      match splitFirst segMark r1 with
      | none => []
      | some ab => parseAfterMark fuel ab.2
    else
      match splitFirst rbMark (r1.dropWhile Char.isDigit) with
      | none => []
      | some ab2 =>
        let r4 := ab2.2.dropWhile isPySpace
        if leadsWith visualMark r4 then
          match splitFirst dlgMark (r4.drop visualMark.length) with
          | none => []
          | some vd =>
            match splitFirst segMark vd.2 with
            | none => [(digitsToNat digits, ⟨pyStrip vd.1, pyStrip vd.2⟩)]
            | some dn =>
              (digitsToNat digits, ⟨pyStrip vd.1, pyStrip dn.1⟩)
                :: parseAfterMark fuel dn.2
        else
          match splitFirst segMark r4 with
          | none => []
          | some ab3 => parseAfterMark fuel ab3.2

/-- `parse_segments` (src/solution.py lines 21-27): scan for the first
block, run the match loop, and build the dict
`{int(m[0]): {"visual": m[1].strip(), "dialogue": m[2].strip()}}`. -/
def parse_segments (s : List Char) : List (Nat × SegInfo) :=
  pyDictOfList (match splitFirst segMark s with
    | none => []
    | some ab => parseAfterMark (s.length + 1) ab.2)

/-- The text of one block after its `[Segment ` opener, in the fixed
well-formed layout `N]\nVisual: V\nDialogue: D\n`. -/
def bodySeg (n : Nat) (v d : List Char) : List Char :=
  natToDigits n ++ "]\nVisual: ".toList ++ v ++ "\nDialogue: ".toList ++ d ++ "\n".toList

/-- One whole block. -/
def renderSeg (n : Nat) (v d : List Char) : List Char := segMark ++ bodySeg n v d

/-- A well-formed bracketed script: the concatenated blocks. -/
def renderScript (segs : List (Nat × List Char × List Char)) : List Char :=
  (segs.map (fun t => renderSeg t.1 t.2.1 t.2.2)).flatten

/-- The field constraints under which the embedded scan coincides with the
regex: no `[` in either field, and no `Dialogue:` inside the visual text. -/
def segOk (v d : List Char) : Prop :=
  '[' ∉ v ∧ '[' ∉ d ∧ containsSub dlgMark v = false

instance (v d : List Char) : Decidable (segOk v d) := by
  rw [segOk]
  infer_instance

theorem bodySeg_append (n : Nat) (v d R : List Char) :
    bodySeg n v d ++ R = natToDigits n ++ ']' :: '\n' ::
      (visualMark ++ ' ' :: (v ++ '\n' ::
        (dlgMark ++ ' ' :: (d ++ '\n' :: R)))) := by
  simp only [bodySeg, List.append_assoc]
  rfl

theorem splitFirst_rb (x : List Char) : splitFirst rbMark (']' :: x) = some ([], x) := rfl

theorem dropWhile_nl_visual (z : List Char) :
    ('\n' :: (visualMark ++ z)).dropWhile isPySpace = visualMark ++ z := rfl

theorem no_lead_of_head_notin (c0 : Char) (pat : List Char) (hp : pat.head? = some c0)
    (a z : List Char) (ha : c0 ∉ a) :
    ∀ i, i < a.length → leadsWith pat ((a ++ z).drop i) = false := by
  induction a generalizing z with
  | nil => intro i hi; simp at hi
  | cons c cs ih =>
    intro i hi
    cases pat with
    | nil => simp at hp
    | cons p ps =>
      have hpc : p = c0 := by simpa using hp
      subst hpc
      cases i with
      | zero =>
        simp only [List.cons_append, List.drop_zero, leadsWith]
        have : ¬(p == c) = true := by
          simp only [beq_iff_eq]
          intro hc
          exact ha (by simp [hc])
        simp [this]
      | succ j =>
        simp only [List.cons_append, List.drop_succ_cons]
        exact ih z (fun hc => ha (List.mem_cons_of_mem _ hc)) j (by simpa using hi)

theorem containsSub_false_of_head_notin (c0 : Char) (pat : List Char)
    (hp : pat.head? = some c0) (s : List Char) (hs : c0 ∉ s) :
    containsSub pat s = false := by
  induction s with
  | nil =>
    cases pat with
    | nil => simp at hp
    | cons p ps => rfl
  | cons c cs ih =>
    cases pat with
    | nil => simp at hp
    | cons p ps =>
      have hpc : p = c0 := by simpa using hp
      subst hpc
      simp only [containsSub, Bool.or_eq_false_iff]
      constructor
      · simp only [leadsWith]
        have : ¬(p == c) = true := by
          simp only [beq_iff_eq]
          intro hc
          exact hs (by simp [hc])
        simp [this]
      · exact ih (fun hc => hs (List.mem_cons_of_mem _ hc))

theorem dlg_no_newline : ∀ k, k < dlgMark.length → dlgMark.get? k ≠ some '\n' := by decide

theorem no_dlg_before (v w : List Char) (hv : containsSub dlgMark v = false) :
    ∀ i, i < (' ' :: (v ++ ['\n'])).length →
      leadsWith dlgMark (((' ' :: (v ++ ['\n'])) ++ (dlgMark ++ w)).drop i) = false := by
  intro i hi
  simp only [List.length_cons, List.length_append, List.length_nil] at hi
  cases i with
  | zero => rfl
  | succ j =>
    have hj : j ≤ v.length := by omega
    rw [show ((' ' :: (v ++ ['\n'])) ++ (dlgMark ++ w)) = ' ' :: (v ++ '\n' :: (dlgMark ++ w))
      from by simp]
    rw [List.drop_succ_cons]
    by_cases hwin : j + dlgMark.length ≤ v.length
    · rw [List.drop_append_of_le_length hj]
      rw [leadsWith_of_append_le _ _ _ (by
        rw [List.length_drop]
        omega)]
      exact containsSub_all dlgMark v (by decide) hv j
    · cases hlw : leadsWith dlgMark ((v ++ '\n' :: (dlgMark ++ w)).drop j) with
      | false => rfl
      | true =>
        exfalso
        have hk : v.length - j < dlgMark.length := by omega
        have hget := leadsWith_get _ _ hlw (v.length - j) hk
        rw [List.get?_drop] at hget
        have harith : j + (v.length - j) = v.length := by omega
        rw [harith] at hget
        rw [List.get?_append_right (Nat.le_refl _)] at hget
        simp only [Nat.sub_self, List.get?_cons_zero] at hget
        exact dlg_no_newline (v.length - j) hk hget.symm

theorem pyStrip_ws_wrap (v : List Char) : pyStrip (' ' :: (v ++ ['\n'])) = pyStrip v := by
  rw [pyStrip, pyStrip]
  rw [show (' ' :: (v ++ ['\n'])).dropWhile isPySpace = (v ++ ['\n']).dropWhile isPySpace
    from rfl]
  rw [List.dropWhile_append]
  split
  · rename_i hemp
    rw [List.isEmpty_iff] at hemp
    rw [hemp]
    rfl
  · rw [dropTrail, dropTrail, List.reverse_append]
    rfl

theorem natToDigits_isEmpty (n : Nat) : (natToDigits n).isEmpty = false := by
  cases hnd : natToDigits n with
  | nil => exact absurd hnd (natToDigits_ne_nil n)
  | cons c cs => rfl

theorem parseAfterMark_step (f : Nat) (n : Nat) (v d R : List Char) (hok : segOk v d) :
    parseAfterMark (f + 1) (bodySeg n v d ++ R) =
      match splitFirst segMark (' ' :: (d ++ '\n' :: R)) with
      | none => [(n, ⟨pyStrip v, pyStrip (' ' :: (d ++ '\n' :: R))⟩)]
      | some dn => (n, ⟨pyStrip v, pyStrip dn.1⟩) :: parseAfterMark f dn.2 := by
  have h1 : (natToDigits n ++ ']' :: '\n' :: (visualMark ++ ' ' :: (v ++ '\n' ::
      (dlgMark ++ ' ' :: (d ++ '\n' :: R))))).takeWhile Char.isDigit = natToDigits n :=
    takeWhile_append_stop _ _ _ _ (natToDigits_all_digits n) (by decide)
  have h2 : (natToDigits n ++ ']' :: '\n' :: (visualMark ++ ' ' :: (v ++ '\n' ::
      (dlgMark ++ ' ' :: (d ++ '\n' :: R))))).dropWhile Char.isDigit
      = ']' :: '\n' :: (visualMark ++ ' ' :: (v ++ '\n' ::
        (dlgMark ++ ' ' :: (d ++ '\n' :: R)))) :=
    dropWhile_append_stop _ _ _ _ (natToDigits_all_digits n) (by decide)
  have h5 : splitFirst dlgMark (' ' :: (v ++ '\n' :: (dlgMark ++ ' ' :: (d ++ '\n' :: R))))
      = some (' ' :: (v ++ ['\n']), ' ' :: (d ++ '\n' :: R)) := by
    have hsa := splitFirst_append dlgMark (' ' :: (v ++ ['\n'])) (' ' :: (d ++ '\n' :: R))
      (fun i hi => no_dlg_before v (' ' :: (d ++ '\n' :: R)) hok.2.2 i hi)
    rw [show (' ' :: (v ++ ['\n'])) ++ (dlgMark ++ (' ' :: (d ++ '\n' :: R)))
        = ' ' :: (v ++ '\n' :: (dlgMark ++ ' ' :: (d ++ '\n' :: R))) from by simp] at hsa
    exact hsa
  rw [bodySeg_append, parseAfterMark]
  simp only [h1, h2, natToDigits_isEmpty, Bool.false_eq_true, if_false, splitFirst_rb,
    dropWhile_nl_visual, leadsWith_append_self, if_true, List.drop_left, h5,
    digitsToNat_natToDigits, pyStrip_ws_wrap]

theorem parseAfterMark_render (segs : List (Nat × List Char × List Char)) :
    ∀ fuel n v d, segOk v d → (∀ t ∈ segs, segOk t.2.1 t.2.2) → segs.length < fuel →
    parseAfterMark fuel (bodySeg n v d ++ renderScript segs)
      = (n, ⟨pyStrip v, pyStrip d⟩)
          :: segs.map (fun t => (t.1, ⟨pyStrip t.2.1, pyStrip t.2.2⟩)) := by
  induction segs with
  | nil =>
    intro fuel n v d hok _hall hfuel
    cases fuel with
    | zero => omega
    | succ f =>
      rw [show renderScript [] = [] from rfl]
      rw [parseAfterMark_step f n v d [] hok]
      rw [splitFirst_none segMark (' ' :: (d ++ '\n' :: [])) (by decide) (by
        apply containsSub_false_of_head_notin '[' segMark rfl
        intro hc
        simp only [List.mem_cons, List.mem_append, List.mem_singleton,
          List.not_mem_nil, or_false] at hc
        rcases hc with hc | hc | hc
        · exact absurd hc (by decide)
        · exact hok.2.1 hc
        · exact absurd hc (by decide))]
      rw [pyStrip_ws_wrap]
      rfl
  | cons t tl ih =>
    intro fuel n v d hok hall hfuel
    cases fuel with
    | zero => simp at hfuel
    | succ f =>
      obtain ⟨n2, v2, d2⟩ := t
      rw [show renderScript ((n2, v2, d2) :: tl)
          = segMark ++ (bodySeg n2 v2 d2 ++ renderScript tl) from by
        rw [renderScript, List.map_cons, List.flatten_cons, renderSeg, List.append_assoc]
        rfl]
      rw [parseAfterMark_step f n v d _ hok]
      have hsp : splitFirst segMark
          (' ' :: (d ++ '\n' :: (segMark ++ (bodySeg n2 v2 d2 ++ renderScript tl))))
          = some (' ' :: (d ++ ['\n']), bodySeg n2 v2 d2 ++ renderScript tl) := by
        have hsa := splitFirst_append segMark (' ' :: (d ++ ['\n']))
          (bodySeg n2 v2 d2 ++ renderScript tl)
          (no_lead_of_head_notin '[' segMark rfl (' ' :: (d ++ ['\n']))
            (segMark ++ (bodySeg n2 v2 d2 ++ renderScript tl)) (by
              intro hc
              simp only [List.mem_cons, List.mem_append, List.mem_singleton,
                List.not_mem_nil, or_false] at hc
              rcases hc with hc | hc | hc
              · exact absurd hc (by decide)
              · exact hok.2.1 hc
              · exact absurd hc (by decide)))
        rw [show (' ' :: (d ++ ['\n'])) ++ (segMark ++ (bodySeg n2 v2 d2 ++ renderScript tl))
            = ' ' :: (d ++ '\n' :: (segMark ++ (bodySeg n2 v2 d2 ++ renderScript tl)))
          from by simp] at hsa
        exact hsa
      rw [hsp]
      show (n, SegInfo.mk (pyStrip v) (pyStrip (' ' :: (d ++ ['\n']))))
          :: parseAfterMark f (bodySeg n2 v2 d2 ++ renderScript tl) = _
      rw [pyStrip_ws_wrap]
      rw [ih f n2 v2 d2 (hall (n2, v2, d2) (by simp)) (fun q hq => hall q (by simp [hq])) (by
        simp only [List.length_cons] at hfuel
        omega)]
      simp

theorem renderScript_length (segs : List (Nat × List Char × List Char)) :
    segs.length ≤ (renderScript segs).length := by
  induction segs with
  | nil => simp [renderScript]
  | cons t tl ih =>
    rw [renderScript, List.map_cons, List.flatten_cons, List.length_append]
    rw [show ((tl.map fun q => renderSeg q.1 q.2.1 q.2.2).flatten) = renderScript tl from rfl]
    have h1 : 1 ≤ (renderSeg t.1 t.2.1 t.2.2).length := by
      rw [renderSeg, List.length_append]
      have : segMark.length = 9 := by decide
      omega
    simp only [List.length_cons]
    omega

theorem foldl_pyDictInsert_append (l : List (Nat × SegInfo)) :
    ∀ acc : List (Nat × SegInfo), (∀ p ∈ l, ∀ q ∈ acc, p.1 ≠ q.1) →
      (l.map Prod.fst).Nodup →
      l.foldl (fun d p => pyDictInsert p.1 p.2 d) acc = acc ++ l := by
  induction l with
  | nil => intro acc _ _; simp
  | cons p t ih =>
    intro acc hdisj hnd
    rw [List.foldl_cons]
    have hins : pyDictInsert p.1 p.2 acc = acc ++ [p] := by
      rw [pyDictInsert, if_neg (by
        intro hc
        rw [List.any_eq_true] at hc
        obtain ⟨q, hq, hbeq⟩ := hc
        exact hdisj p (by simp) q hq (beq_iff_eq.mp hbeq).symm)]
    rw [hins]
    rw [ih (acc ++ [p]) (by
        intro r hr q hq
        rcases List.mem_append.mp hq with hq | hq
        · exact hdisj r (List.mem_cons_of_mem _ hr) q hq
        · have hqp : q = p := by simpa using hq
          subst hqp
          simp only [List.map_cons] at hnd
          have := (List.nodup_cons.mp hnd).1
          intro hc
          apply this
          rw [← hc]
          exact List.mem_map_of_mem Prod.fst hr)
      (by
        simp only [List.map_cons] at hnd
        exact (List.nodup_cons.mp hnd).2)]
    simp

theorem pyDictOfList_nodup (l : List (Nat × SegInfo)) (hnd : (l.map Prod.fst).Nodup) :
    pyDictOfList l = l := by
  rw [pyDictOfList, foldl_pyDictInsert_append l [] (by intro p _ q hq; simp at hq) hnd]
  simp

theorem parse_segments_render (segs : List (Nat × List Char × List Char))
    (hall : ∀ t ∈ segs, segOk t.2.1 t.2.2)
    (hnd : (segs.map (fun t => t.1)).Nodup) :
    parse_segments (renderScript segs)
      = segs.map (fun t => (t.1, ⟨pyStrip t.2.1, pyStrip t.2.2⟩)) := by
  cases segs with
  | nil => rfl
  | cons t tl =>
    obtain ⟨n, v, d⟩ := t
    rw [parse_segments]
    rw [show renderScript ((n, v, d) :: tl)
        = segMark ++ (bodySeg n v d ++ renderScript tl) from by
      rw [renderScript, List.map_cons, List.flatten_cons, renderSeg, List.append_assoc]
      rfl]
    rw [splitFirst_self]
    show pyDictOfList (parseAfterMark
        ((segMark ++ (bodySeg n v d ++ renderScript tl)).length + 1)
        (bodySeg n v d ++ renderScript tl)) = _
    rw [parseAfterMark_render tl _ n v d (hall (n, v, d) (by simp))
      (fun q hq => hall q (by simp [hq]))
      (by
        have h1 := renderScript_length tl
        simp only [List.length_append]
        omega)]
    rw [pyDictOfList_nodup]
    · simp
    · rw [show ((n, (⟨pyStrip v, pyStrip d⟩ : SegInfo))
          :: tl.map fun q => (q.1, (⟨pyStrip q.2.1, pyStrip q.2.2⟩ : SegInfo))).map Prod.fst
          = n :: tl.map (fun q => q.1) from by simp]
      simpa using hnd

/-- C2: for every well-formed bracketed script with K segment blocks
(pairwise distinct indices; field texts avoiding the delimiter literals),
`parse_segments` returns a mapping with exactly K entries, keyed by the
integer indices appearing in the source (not necessarily contiguous), each
holding the visual and dialogue strings trimmed of surrounding
whitespace. -/
theorem C2_parse_segments_wellformed (segs : List (Nat × List Char × List Char))
    (hall : ∀ t ∈ segs, segOk t.2.1 t.2.2)
    (hnd : (segs.map (fun t => t.1)).Nodup) :
    parse_segments (renderScript segs)
      = segs.map (fun t => (t.1, ⟨pyStrip t.2.1, pyStrip t.2.2⟩)) ∧
    (parse_segments (renderScript segs)).length = segs.length ∧
    (parse_segments (renderScript segs)).map Prod.fst = segs.map (fun t => t.1) := by
  have h := parse_segments_render segs hall hnd
  refine ⟨h, ?_, ?_⟩
  · rw [h, List.length_map]
  · rw [h, List.map_map]
    rfl

/-- C2 witness: a two-block script with the non-contiguous indices 1 and 3
and untrimmed field text. -/
theorem C2_parse_segments_wellformed_witness :
    parse_segments (renderScript
        [(1, "nguoi_cao_tuoi host".toList, "  Xin chào  ".toList),
         (3, "chuyen_gia guest".toList, "Cảm ơn".toList)])
      = [(1, ⟨"nguoi_cao_tuoi host".toList, "Xin chào".toList⟩),
         (3, ⟨"chuyen_gia guest".toList, "Cảm ơn".toList⟩)] ∧
    (parse_segments (renderScript
        [(1, "nguoi_cao_tuoi host".toList, "  Xin chào  ".toList),
         (3, "chuyen_gia guest".toList, "Cảm ơn".toList)])).length = 2 := by
  have h := C2_parse_segments_wellformed
    [(1, "nguoi_cao_tuoi host".toList, "  Xin chào  ".toList),
     (3, "chuyen_gia guest".toList, "Cảm ơn".toList)]
    (by decide) (by decide)
  refine ⟨?_, ?_⟩
  · rw [h.1]
    rfl
  · rw [h.2.1]
    rfl

/-! ## The video pipeline (src/solution.py, solve) -/

/-- The three reference images generated in STEP 0 and chosen per segment
in STEP 3. -/
inductive RefImage
  | oldPerson
  | consultant
  | background
deriving DecidableEq

/-- The remote requests `solve` issues: one chat-image generation per
reference asset (STEP 0) and one TTS synthesis per segment with non-empty
dialogue (STEP 2, the voice chosen by the keyword policy). -/
inductive NetCall
  | imageGen (which : RefImage)
  | tts (i : Nat) (voice : List Char)
deriving DecidableEq

/-- `NUM_SEGMENTS = math.ceil(TOTAL_DURATION / 8)` with
`TOTAL_DURATION = 240`. -/
def NUM_SEGMENTS : Nat := (240 + 8 - 1) / 8

/-- The `VOICE_MAP` of `solve`. -/
def VOICE_MAP : List (List Char × List Char) :=
  [("nguoi_cao_tuoi".toList, "Vietnamese-Male-Old".toList),
   ("chuyen_gia".toList, "Vietnamese-Male-Young".toList)]

/-- The character keyword for the old-person voice/image. -/
def keyOld : List Char := "nguoi_cao_tuoi".toList

/-- The character keyword for the consultant image. -/
def keyExpert : List Char := "chuyen_gia".toList

/-- `segments.get(i, {})` with the `"visual"`/`"dialogue"` defaults `""`. -/
def segGet (segs : List (Nat × SegInfo)) (i : Nat) : SegInfo :=
  match pyDictGet segs i with
  | some s => s
  | none => ⟨[], []⟩

/-- STEP 2 voice policy: default `VOICE_MAP.get("chuyen_gia")`, overridden
by `VOICE_MAP.get("nguoi_cao_tuoi")` when the keyword occurs in the visual
description. -/
def voiceFor (visual : List Char) : Option (List Char) :=
  if containsSub keyOld visual then pyDictGet VOICE_MAP keyOld
  else pyDictGet VOICE_MAP keyExpert

/-- STEP 3 image policy: background by default, a character reference when
its keyword occurs in the visual description (old person checked first). -/
def imageFor (visual : List Char) : RefImage :=
  if containsSub keyOld visual then .oldPerson
  else if containsSub keyExpert visual then .consultant
  else .background

/-- The `FileNotFoundError`s of `solve` and the `ValueError` of STEP 4. -/
inductive SolveErr
  | scriptMissing
  | gifMissing
  | noClips
deriving DecidableEq

/-- The observable outcome of one successful `solve` run: ordered remote
requests, segment indices with synthesized audio, the per-segment
intermediate videos with their chosen reference image, the number of final
artifacts written, the OutputManager state, and the returned path. -/
structure SolveOut where
  netCalls : List NetCall
  audioSegs : List Nat
  interVideos : List (Nat × RefImage)
  finalCount : Nat
  om : OMState
  finalPath : List Char
deriving DecidableEq

/-- `solve` (src/solution.py lines 30-187) as a pure effect model:
register the solution folder, check the script and overlay exist
(`FileNotFoundError` otherwise), issue the three reference-image requests
(STEP 0, before the script is parsed), parse the script (STEP 1),
synthesize audio for each of segments 1..NUM_SEGMENTS with non-empty
dialogue (STEP 2), build one intermediate video per segment index — silent
when there is no audio (STEP 3) — raise when no clips exist, and write the
single concatenated+overlaid final artifact through the output manager
(STEP 4, `save_final_file`).  `finalSizeBytes` is the size of the encoded
final file. -/
def solveModel (scriptExists gifExists : Bool) (script : List Char)
    (finalSizeBytes : Nat) (st0 : OMState) : Except SolveErr SolveOut :=
  let st1 := (create_solution_folder st0 1 "Vietnamese Video".toList).1
  if !scriptExists then .error .scriptMissing
  else if !gifExists then .error .gifMissing
  else
    let refCalls : List NetCall :=
      [.imageGen .oldPerson, .imageGen .consultant, .imageGen .background]
    let segments := parse_segments script
    let audioSegs := (List.range' 1 NUM_SEGMENTS).filter
      (fun i => !(segGet segments i).dialogue.isEmpty)
    let ttsCalls := audioSegs.map
      (fun i => NetCall.tts i ((voiceFor (segGet segments i).visual).getD []))
    let interVideos := (List.range' 1 NUM_SEGMENTS).map
      (fun i => (i, imageFor (segGet segments i).visual))
    if interVideos.isEmpty then .error .noClips
    else
      let saved := save_final_file st1 finalSizeBytes 1
        "Video".toList "video".toList ".mp4".toList
      .ok ⟨refCalls ++ ttsCalls, audioSegs, interVideos, 1, saved.1, saved.2⟩

/-- C1 counterexample: a script in which `parse_segments` finds zero
segments, run through the video pipeline — the run issues the three
reference-image network requests (they happen in STEP 0, before parsing)
and completes instead of halting, refuting the claim that a zero-match
parse halts the pipeline before any network call. -/
theorem C1_counterexample :
    parse_segments "just text, no segments".toList = [] ∧
    (solveModel true true "just text, no segments".toList 5
        ⟨"outputs".toList, [], 0, 0⟩).toOption.map (fun o => o.netCalls)
      = some [NetCall.imageGen RefImage.oldPerson, NetCall.imageGen RefImage.consultant,
          NetCall.imageGen RefImage.background] ∧
    (solveModel true true "just text, no segments".toList 5
        ⟨"outputs".toList, [], 0, 0⟩).toOption.map (fun o => o.netCalls.isEmpty)
      = some false := by
  refine ⟨rfl, rfl, rfl⟩

/-- The concrete two-segment scenario script of C3: segment 1 matching the
old-person keyword, segment 2 the consultant keyword, both with non-empty
dialogue. -/
def c3Script : List Char :=
  ("[Segment 1]\nVisual: nguoi_cao_tuoi host\nDialogue: Xin chao\n"
    ++ "[Segment 2]\nVisual: chuyen_gia guest\nDialogue: Cam on\n").toList

/-- C3 counterexample: on the exact two-segment scenario the pipeline
produces 30 (= NUM_SEGMENTS) intermediate per-segment videos, not exactly
two — only two of them carry audio — and the run metadata records one
completed step (the single save_final_file), not two. -/
theorem C3_counterexample :
    (solveModel true true c3Script 7 ⟨"outputs".toList, [], 0, 0⟩).toOption.map
        (fun o => (o.interVideos.length, o.audioSegs, o.finalCount,
          (pyDictGet o.om.solutions (solutionKey 1)).map (fun r => r.steps.length)))
      = some (30, [1, 2], 1, some 1) ∧
    (30 ≠ 2 ∧ (1 : Nat) ≠ 2) := by
  refine ⟨rfl, by decide, by decide⟩

theorem pyDictGet_append_single [BEq κ] [LawfulBEq κ] (k : κ) (v : α) (d : List (κ × α))
    (hnone : (d.any fun p => p.1 == k) = false) : pyDictGet (d ++ [(k, v)]) k = some v := by
  induction d with
  | nil => simp [pyDictGet, List.find?]
  | cons p t ih =>
    simp only [List.any_cons, Bool.or_eq_false_iff] at hnone
    simp only [List.cons_append, pyDictGet, List.find?, hnone.1]
    have := ih hnone.2
    rw [pyDictGet] at this
    simpa using this

theorem pyDictGet_map_update [BEq κ] [LawfulBEq κ] (k : κ) (v : α) (d : List (κ × α))
    (hsome : (d.any fun p => p.1 == k) = true) :
    pyDictGet (d.map fun p => if p.1 == k then (k, v) else p) k = some v := by
  induction d with
  | nil => simp at hsome
  | cons p t ih =>
    by_cases hp : (p.1 == k) = true
    · simp [pyDictGet, List.find?, hp]
    · have hp' : (p.1 == k) = false := by simpa using hp
      simp only [List.any_cons, hp', Bool.false_or] at hsome
      simp only [List.map_cons, hp', Bool.false_eq_true, if_false, pyDictGet, List.find?]
      have := ih hsome
      rw [pyDictGet] at this
      simpa [hp'] using this

theorem pyDictGet_insert_self [BEq κ] [LawfulBEq κ] (k : κ) (v : α) (d : List (κ × α)) :
    pyDictGet (pyDictInsert k v d) k = some v := by
  rw [pyDictInsert]
  by_cases hany : (d.any fun p => p.1 == k) = true
  · rw [if_pos hany]
    exact pyDictGet_map_update k v d hany
  · rw [if_neg hany]
    exact pyDictGet_append_single k v d (Bool.eq_false_iff.mpr hany)

theorem create_lookup (st : OMState) (n : Nat) (name : List Char) :
    pyDictGet ((create_solution_folder st n name).1).solutions (solutionKey n)
      = some ⟨n, name, (create_solution_folder st n name).2, []⟩ :=
  pyDictGet_insert_self _ _ _

theorem segGet_pair_ge3 (a b : SegInfo) (i : Nat) (hi : 3 ≤ i) :
    segGet [(1, a), (2, b)] i = ⟨[], []⟩ := by
  have h1 : ((1 : Nat) == i) = false := by
    simp only [beq_eq_false_iff_ne]
    omega
  have h2 : ((2 : Nat) == i) = false := by
    simp only [beq_eq_false_iff_ne]
    omega
  simp [segGet, pyDictGet, List.find?, h1, h2]

theorem filter_range'_false (p : Nat → Bool) :
    ∀ n a, (∀ i, a ≤ i → p i = false) → (List.range' a n).filter p = [] := by
  intro n
  induction n with
  | zero => intro a _; rfl
  | succ m ih =>
    intro a h
    rw [List.range'_succ a m 1, List.filter_cons_of_neg (by simp [h a (Nat.le_refl a)]),
      ih (a + 1) (fun i hi => h i (by omega))]

/-- C3 amended: on a two-segment scenario script (segment 1 matching
`nguoi_cao_tuoi`, segment 2 matching `chuyen_gia`, both with non-empty
dialogue and configured voices) the pipeline synthesizes exactly two audio
artifacts but produces NUM_SEGMENTS (=30) intermediate per-segment videos
(the other 28 silent, backed by the background reference), one final
artifact, and the run metadata records ONE completed step while the totals
grow by one file of the final artifact's exact size. -/
theorem C3_two_segment_run (v1 d1 v2 d2 : List Char) (sz : Nat) (st0 : OMState)
    (h1 : segOk v1 d1) (h2 : segOk v2 d2)
    (hd1 : (pyStrip d1).isEmpty = false) (hd2 : (pyStrip d2).isEmpty = false)
    (hk1 : containsSub keyOld (pyStrip v1) = true)
    (hk2 : containsSub keyExpert (pyStrip v2) = true)
    (hn2 : containsSub keyOld (pyStrip v2) = false) :
    ∃ out, solveModel true true (renderScript [(1, v1, d1), (2, v2, d2)]) sz st0
        = .ok out ∧
      out.audioSegs = [1, 2] ∧
      out.interVideos.length = NUM_SEGMENTS ∧
      NUM_SEGMENTS = 30 ∧
      out.interVideos.take 2 = [(1, RefImage.oldPerson), (2, RefImage.consultant)] ∧
      out.finalCount = 1 ∧
      out.om.totalFiles = st0.totalFiles + 1 ∧
      out.om.totalSizeMb = st0.totalSizeMb + mbOf sz ∧
      (pyDictGet out.om.solutions (solutionKey 1)).map (fun r => r.steps.length)
        = some 1 := by
  have hparse := parse_segments_render [(1, v1, d1), (2, v2, d2)]
    (by
      intro t ht
      simp only [List.mem_cons, List.not_mem_nil, or_false] at ht
      rcases ht with ht | ht <;> subst ht
      · exact h1
      · exact h2)
    (by simp)
  simp only [List.map_cons, List.map_nil] at hparse
  have haud : (List.range' 1 NUM_SEGMENTS).filter
      (fun i => !(segGet [(1, ⟨pyStrip v1, pyStrip d1⟩),
          (2, ⟨pyStrip v2, pyStrip d2⟩)] i).dialogue.isEmpty) = [1, 2] := by
    rw [show List.range' 1 NUM_SEGMENTS = 1 :: 2 :: List.range' 3 28 from rfl]
    rw [List.filter_cons_of_pos (by
        show (!(segGet [(1, ⟨pyStrip v1, pyStrip d1⟩),
            (2, ⟨pyStrip v2, pyStrip d2⟩)] 1).dialogue.isEmpty) = true
        rw [show segGet [(1, (⟨pyStrip v1, pyStrip d1⟩ : SegInfo)),
            (2, ⟨pyStrip v2, pyStrip d2⟩)] 1 = ⟨pyStrip v1, pyStrip d1⟩ from rfl]
        simp [hd1]),
      List.filter_cons_of_pos (by
        show (!(segGet [(1, ⟨pyStrip v1, pyStrip d1⟩),
            (2, ⟨pyStrip v2, pyStrip d2⟩)] 2).dialogue.isEmpty) = true
        rw [show segGet [(1, (⟨pyStrip v1, pyStrip d1⟩ : SegInfo)),
            (2, ⟨pyStrip v2, pyStrip d2⟩)] 2 = ⟨pyStrip v2, pyStrip d2⟩ from rfl]
        simp [hd2]),
      filter_range'_false _ 28 3 (fun i hi => by
        rw [segGet_pair_ge3 _ _ i hi]
        rfl)]
  have hrun : solveModel true true (renderScript [(1, v1, d1), (2, v2, d2)]) sz st0
      = .ok ⟨[NetCall.imageGen .oldPerson, .imageGen .consultant, .imageGen .background]
            ++ [1, 2].map (fun i => NetCall.tts i ((voiceFor (segGet
                [(1, ⟨pyStrip v1, pyStrip d1⟩), (2, ⟨pyStrip v2, pyStrip d2⟩)] i).visual).getD [])),
          [1, 2],
          (List.range' 1 NUM_SEGMENTS).map (fun i => (i, imageFor (segGet
              [(1, ⟨pyStrip v1, pyStrip d1⟩), (2, ⟨pyStrip v2, pyStrip d2⟩)] i).visual)),
          1,
          (save_final_file ((create_solution_folder st0 1 "Vietnamese Video".toList).1)
            sz 1 "Video".toList "video".toList ".mp4".toList).1,
          (save_final_file ((create_solution_folder st0 1 "Vietnamese Video".toList).1)
            sz 1 "Video".toList "video".toList ".mp4".toList).2⟩ := by
    simp only [solveModel, hparse, haud, Bool.not_true, Bool.false_eq_true, if_false]
    rfl
  refine ⟨_, hrun, ?_, ?_, ?_, ?_, ?_, ?_, ?_, ?_⟩
  · show ([1, 2] : List Nat) = [1, 2]
    rfl
  · show ((List.range' 1 NUM_SEGMENTS).map _).length = NUM_SEGMENTS
    rw [List.length_map, List.length_range']
  · rfl
  · rw [show List.range' 1 NUM_SEGMENTS = 1 :: 2 :: List.range' 3 28 from rfl]
    show [(1, imageFor (segGet [(1, ⟨pyStrip v1, pyStrip d1⟩),
          (2, ⟨pyStrip v2, pyStrip d2⟩)] 1).visual),
        (2, imageFor (segGet [(1, ⟨pyStrip v1, pyStrip d1⟩),
          (2, ⟨pyStrip v2, pyStrip d2⟩)] 2).visual)]
      = [(1, RefImage.oldPerson), (2, RefImage.consultant)]
    rw [show segGet [(1, (⟨pyStrip v1, pyStrip d1⟩ : SegInfo)),
        (2, ⟨pyStrip v2, pyStrip d2⟩)] 1 = ⟨pyStrip v1, pyStrip d1⟩ from rfl]
    rw [show segGet [(1, (⟨pyStrip v1, pyStrip d1⟩ : SegInfo)),
        (2, ⟨pyStrip v2, pyStrip d2⟩)] 2 = ⟨pyStrip v2, pyStrip d2⟩ from rfl]
    rw [show imageFor (⟨pyStrip v1, pyStrip d1⟩ : SegInfo).visual = RefImage.oldPerson from by
      rw [imageFor, if_pos hk1]]
    rw [show imageFor (⟨pyStrip v2, pyStrip d2⟩ : SegInfo).visual = RefImage.consultant from by
      rw [imageFor, if_neg (by simp [hn2]), if_pos hk2]]
  · rfl
  · show (addStep ((create_solution_folder st0 1 "Vietnamese Video".toList).1) 1
        (finalStep "video".toList sz)).totalFiles + 1 = st0.totalFiles + 1
    rw [(addStep_totals _ _ _).1]
    rfl
  · show (addStep ((create_solution_folder st0 1 "Vietnamese Video".toList).1) 1
        (finalStep "video".toList sz)).totalSizeMb + mbOf sz = st0.totalSizeMb + mbOf sz
    rw [(addStep_totals _ _ _).2.1]
    rfl
  · show (pyDictGet (addStep ((create_solution_folder st0 1 "Vietnamese Video".toList).1) 1
        (finalStep "video".toList sz)).solutions (solutionKey 1)).map
        (fun r => r.steps.length) = some 1
    rw [addStep_lookup_some ((create_solution_folder st0 1 "Vietnamese Video".toList).1)
      1 (finalStep "video".toList sz) _ (create_lookup st0 1 "Vietnamese Video".toList)]
    rfl

/-- C3 amended witness: the concrete two-segment scenario run from a fresh
output manager. -/
theorem C3_two_segment_run_witness :
    ∃ out, solveModel true true (renderScript
        [(1, "nguoi_cao_tuoi host".toList, "Xin chao".toList),
         (2, "chuyen_gia guest".toList, "Cam on".toList)]) 7
        ⟨"outputs".toList, [], 0, 0⟩ = .ok out ∧
      out.audioSegs = [1, 2] ∧
      out.interVideos.length = NUM_SEGMENTS ∧
      NUM_SEGMENTS = 30 ∧
      out.interVideos.take 2 = [(1, RefImage.oldPerson), (2, RefImage.consultant)] ∧
      out.finalCount = 1 ∧
      out.om.totalFiles = (OMState.mk "outputs".toList [] 0 0).totalFiles + 1 ∧
      out.om.totalSizeMb = (OMState.mk "outputs".toList [] 0 0).totalSizeMb + mbOf 7 ∧
      (pyDictGet out.om.solutions (solutionKey 1)).map (fun r => r.steps.length)
        = some 1 :=
  C3_two_segment_run "nguoi_cao_tuoi host".toList "Xin chao".toList
    "chuyen_gia guest".toList "Cam on".toList 7 ⟨"outputs".toList, [], 0, 0⟩
    (by decide) (by decide) (by decide) (by decide) (by decide) (by decide) (by decide)
